import Mathlib

/-!
# exampleBidAdapter: a shallow embedding of `src/modules/exampleBidAdapter.js`

The adapter's functions are translated into Lean functions over a model of the
JavaScript values they receive.

Scope of the value model:
* values are tree-shaped data (what a host hands over as plain records): there
  are no functions, symbols or getters, and no two occurrences of an array or
  object are the same reference;
* numbers are integers of magnitude below 10^21, which JavaScript writes with
  all their decimal digits (every number the adapter itself produces is one);
* an object is a plain record without an own `toString` property, so that its
  conversion to a string is `[object Object]`; on an assertion whose `source` is
  a string (`isAssertion`) no conversion of a number or an object takes place;
* an object is its list of own enumerable properties in insertion order (the
  rule that array-index keys are enumerated first is not modelled); the
  prototype chain is not modelled, which is sound for the fixed property names
  the adapter reads (none of them is defined on a built-in prototype, `length`
  of arrays and strings apart);
* a JavaScript `TypeError` is the error result `JSError.typeError`;
* `JSON.stringify` and `JSON.parse` are the built-ins on these values, written
  out character by character.

The file has the definitions first (the value model, the adapter's functions in
source order, JSON text, the vocabulary of the statements), then the theorems.
-/

namespace ExampleBidAdapter

/-! ## JavaScript values -/

/-- The JavaScript values of the model. -/
inductive JSVal where
  | undefined : JSVal
  | null : JSVal
  | bool (b : Bool) : JSVal
  | num (n : Int) : JSVal
  | str (s : String) : JSVal
  | arr (xs : List JSVal) : JSVal
  | obj (props : List (String × JSVal)) : JSVal
  deriving Inhabited

/-- The faults a modelled operation can raise. -/
inductive JSError where
  | typeError : JSError
  deriving DecidableEq, Repr, Inhabited

/-- The result of running a piece of JavaScript: a value or a thrown error. -/
abbrev JSResult (α : Type) := Except JSError α

namespace JSVal

/-- Truthiness (`ToBoolean`): `undefined`, `null`, `false`, `0` and `''` are falsy. -/
def truthy : JSVal → Bool
  | undefined => false
  | null => false
  | bool b => b
  | num n => n != 0
  | str s => s != ""
  | arr _ => true
  | obj _ => true

/-- Whether a value is `undefined` or `null`. -/
def isNullish : JSVal → Bool
  | undefined => true
  | null => true
  | _ => false

/-- Whether a value is exactly `undefined` (what a destructuring default tests). -/
def isUndefined : JSVal → Bool
  | undefined => true
  | _ => false

/-- Strict equality `===`. Two arrays or objects met at different places of a
tree-shaped value are different references, hence never strictly equal. -/
def strictEq : JSVal → JSVal → Bool
  | undefined, undefined => true
  | null, null => true
  | bool a, bool b => a == b
  | num a, num b => a == b
  | str a, str b => a == b
  | _, _ => false

end JSVal

/-! ## Decimal rendering of integers -/

/-- The decimal digit character of the last digit of a number. -/
def digitChar (d : Nat) : Char := Char.ofNat (48 + d % 10)

/-- Decimal digits of `n`, most significant first; `fuel` bounds their number. -/
def decimalAux : Nat → Nat → List Char
  | 0, _ => []
  | fuel + 1, n =>
    if n < 10 then [digitChar n] else decimalAux fuel (n / 10) ++ [digitChar n]

/-- Decimal digits of a natural number. -/
def decimal (n : Nat) : List Char := decimalAux (n + 1) n

/-- The text of an integer of magnitude below 10^21 (`Number::toString` writes such
an integer with all its decimal digits). From 10^21 on JavaScript writes the
exponent form; such numbers are outside the model. -/
def intText : Int → List Char
  | Int.ofNat n => decimal n
  | Int.negSucc n => '-' :: decimal (n + 1)

namespace JSVal

mutual
/-- The characters of `ToString` of a value. An object is a plain record without
an own `toString` property, whose conversion is the inherited
`Object.prototype.toString`; an object with an own `toString` entry (not callable,
so that the conversion throws) is outside the model. -/
def toChars : JSVal → List Char
  | undefined => "undefined".data
  | null => "null".data
  | bool true => "true".data
  | bool false => "false".data
  | num n => intText n
  | str s => s.data
  | arr xs => joinChars xs
  | obj _ => "[object Object]".data
/-- The characters of `Array.prototype.join(',')`: `undefined` and `null` elements
render as the empty string. -/
def joinChars : List JSVal → List Char
  | [] => []
  | [x] => if x.isNullish then [] else toChars x
  | x :: y :: rest =>
    (if x.isNullish then [] else toChars x) ++ ',' :: joinChars (y :: rest)
end

/-- The `ToString` conversion. -/
def toStr (v : JSVal) : String := String.mk (toChars v)

/-- The `ToPropertyKey` conversion of a computed member name. -/
def toPropertyKey (v : JSVal) : String := toStr v

end JSVal

/-! ## Property access, assignment and array methods -/

/-- The number of UTF-16 code units of a character. -/
def utf16Units (c : Char) : Nat := if c.val < 0x10000 then 1 else 2

/-- The `length` of a string: its number of UTF-16 code units. -/
def utf16Length (s : String) : Nat := (s.data.map utf16Units).sum

/-- The own property `k` of a property list, if there is one. -/
def lookup (k : String) : List (String × JSVal) → Option JSVal
  | [] => none
  | (k', v) :: rest => if k' = k then some v else lookup k rest

/-- Whether a property list has the own property `k`. -/
def hasOwn (k : String) (props : List (String × JSVal)) : Bool :=
  (lookup k props).isSome

/-- The own keys of a property list (`Object.keys`). -/
def ownKeys (props : List (String × JSVal)) : List String := props.map Prod.fst

/-- Overwrite the value of the own property `k`, keeping its position. -/
def replaceOwn (k : String) (v : JSVal) : List (String × JSVal) → List (String × JSVal)
  | [] => []
  | (k', v') :: rest =>
    if k' = k then (k', v) :: rest else (k', v') :: replaceOwn k v rest

/-- The assignment `o[k] = v` on an ordinary object whose own properties are
`props`: an existing own property is overwritten, a new one is appended. The
name `__proto__` is an accessor inherited from `Object.prototype`: assigning to
it (when it is not an own property) changes the prototype and adds no own
property. -/
def assign (props : List (String × JSVal)) (k : String) (v : JSVal) :
    List (String × JSVal) :=
  if hasOwn k props then replaceOwn k v props
  else if k = "__proto__" then props
  else props ++ [(k, v)]

/-- The property read `v[k]` or `v.k`, for a name `k` that is not an array index
and not defined on a built-in prototype (`length` apart): reading a property of
`undefined` or `null` throws a `TypeError`; a missing property is `undefined`. -/
def getProp (v : JSVal) (k : String) : JSResult JSVal :=
  match v with
  | .undefined => .error .typeError
  | .null => .error .typeError
  | .obj props => .ok ((lookup k props).getD .undefined)
  | .arr xs => .ok (if k = "length" then .num xs.length else .undefined)
  | .str s => .ok (if k = "length" then .num (utf16Length s) else .undefined)
  | _ => .ok .undefined

/-- Apply `f` to the elements in order, stopping at the first one that throws. -/
def mapElems (f : JSVal → JSResult JSVal) : List JSVal → JSResult (List JSVal)
  | [] => pure []
  | x :: xs => do
    let y ← f x
    let ys ← mapElems f xs
    pure (y :: ys)

/-- The call `v.map(f)`: only an array has a callable `map`; on `undefined` or
`null` the property read throws, on anything else the call of a non-function
throws. -/
def arrayMap (v : JSVal) (f : JSVal → JSResult JSVal) : JSResult JSVal :=
  match v with
  | .arr xs => (mapElems f xs).map .arr
  | _ => .error .typeError

/-- The call `v.some(f)` for a predicate that does not throw. -/
def arraySome (v : JSVal) (f : JSVal → Bool) : JSResult Bool :=
  match v with
  | .arr xs => .ok (xs.any f)
  | _ => .error .typeError

/-- The values a `for (... of v)` loop visits: the elements of an array, the
code points of a string; anything else is not iterable. -/
def iterate (v : JSVal) : JSResult (List JSVal) :=
  match v with
  | .arr xs => .ok xs
  | .str s => .ok (s.data.map fun c => .str (String.singleton c))
  | _ => .error .typeError

/-! ## The identity normalizer and reconciler -/

/-- The table `handleUserIds` starts from: `{ 'pubcid.org': [] }`. -/
def initialTable : List (String × JSVal) := [("pubcid.org", .arr [])]

/-- One round of the loop of `handleUserIds`:
`const { source, uids = [] } = item; suitableObj[source] = uids.map(ob => ob.id)`. -/
def handleItem (suitableObj : List (String × JSVal)) (item : JSVal) :
    JSResult (List (String × JSVal)) := do
  let source ← getProp item "source"
  let uids0 ← getProp item "uids"
  let uids := if uids0.isUndefined then JSVal.arr [] else uids0
  let ids ← arrayMap uids (fun ob => getProp ob "id")
  pure (assign suitableObj source.toPropertyKey ids)

/-- The loop of `handleUserIds` over the elements of the array. -/
def handleItems : List (String × JSVal) → List JSVal → JSResult (List (String × JSVal))
  | suitableObj, [] => pure suitableObj
  | suitableObj, item :: rest => do
    let next ← handleItem suitableObj item
    handleItems next rest

/-- `handleUserIds` (source lines 13-43). -/
def handleUserIds (userIdAsEid : JSVal) : JSResult JSVal :=
  match userIdAsEid with
  | .arr items => (handleItems initialTable items).map .obj
  | _ => pure (.obj initialTable)

/-- The `for ... of` loop of `getTdidRepetition` over the reference identifiers:
`-5` at the first one that `userIdAsEidObject['pubcid.org'].some(...)` finds,
`0` when the loop ends. -/
def tdidLoop (userIdAsEidObject : JSVal) : List JSVal → JSResult Int
  | [] => pure 0
  | id :: rest => do
    let pub ← getProp userIdAsEidObject "pubcid.org"
    let hit ← arraySome pub (fun pubId => JSVal.strictEq pubId id)
    if hit then pure (-5) else tdidLoop userIdAsEidObject rest

/-- `getTdidRepetition` (source lines 45-52); the parameter defaults to `{}` when
the argument is `undefined`. -/
def getTdidRepetition (arg : JSVal) : JSResult Int := do
  let userIdAsEidObject := if arg.isUndefined then JSVal.obj [] else arg
  let adserver ← getProp userIdAsEidObject "adserver.org"
  if !adserver.truthy then return -2
  let len ← getProp adserver "length"
  if !len.truthy then return -1
  let ids ← iterate adserver
  tdidLoop userIdAsEidObject ids

/-! ## The bidder spec object -/

/-- The module-level constants read from `window` when the module is loaded
(source lines 7-10). -/
structure PageSnapshot where
  DOMAIN : String
  PAGE : String
  WIDTH : Int
  HEIGHT : Int

/-- `ENDPOINT_URL` (source line 11). -/
def ENDPOINT_URL : String := "http://www.superssp.com:1234/api/v1"

/-- `spec.isBidRequestValid` (source lines 67-69):
`!!(bid.params.placementId || (bid.params.member && bid.params.invCode))`,
with the short-circuit evaluation of `||` and `&&`. -/
def isBidRequestValid (bid : JSVal) : JSResult JSVal := do
  let placementId ← getProp bid "params" >>= fun p => getProp p "placementId"
  let disj ←
    if placementId.truthy then pure placementId
    else do
      let member ← getProp bid "params" >>= fun p => getProp p "member"
      if member.truthy then getProp bid "params" >>= fun p => getProp p "invCode"
      else pure member
  pure (.bool disj.truthy)

/-- `spec.interpretResponse` (source lines 117-134). -/
def interpretResponse (env : PageSnapshot) (serverResponse bidRequest : JSVal) :
    JSResult JSVal := do
  let _ := serverResponse
  let bidId ← getProp bidRequest "bidId"
  let bidResponse := JSVal.obj [
    ("requestId", bidId),
    ("cpm", .num 1),
    ("width", .num env.WIDTH),
    ("height", .num env.HEIGHT),
    ("creativeId", .str "CREATIVE_ID"),
    ("dealId", .str "DEAL_ID"),
    ("currency", .str "USD"),
    ("netRevenue", .bool true),
    ("ttl", .num 360),
    ("referrer", .str "REFERER"),
    ("ad", .str "CREATIVE_BODY")]
  pure (.arr [bidResponse])

/-! ## JSON text

`JSON.stringify` and `JSON.parse` on the values of the model, character by
character. Numbers are integers: a number text with a fraction or an exponent is
outside the model and `JSON.parse` gives no result on it, as it does on text that
is not JSON. -/

/-- A lower-case hexadecimal digit. -/
def hexDigit (n : Nat) : Char :=
  if n % 16 < 10 then Char.ofNat (48 + n % 16) else Char.ofNat (87 + n % 16)

/-- The text of one character inside a JSON string (`QuoteJSONString`): the quote,
the backslash and the control characters are escaped. -/
def escapeChar (c : Char) : List Char :=
  if c = '\x22' then ['\x5c', '\x22']
  else if c = '\x5c' then ['\x5c', '\x5c']
  else if c = '\x08' then ['\x5c', 'b']
  else if c = '\x0c' then ['\x5c', 'f']
  else if c = '\x0a' then ['\x5c', 'n']
  else if c = '\x0d' then ['\x5c', 'r']
  else if c = '\x09' then ['\x5c', 't']
  else if c.toNat < 32 then ['\x5c', 'u', '0', '0', hexDigit (c.toNat / 16), hexDigit c.toNat]
  else [c]

/-- The escaped characters of a string followed by the closing quote. -/
def quoteBody : List Char → List Char
  | [] => ['\x22']
  | c :: rest => escapeChar c ++ quoteBody rest

/-- The JSON text of a string. -/
def quoteJSONString (s : String) : List Char := '\x22' :: quoteBody s.data

namespace JSON

mutual
/-- The JSON text of a value in an array position (`undefined` is written `null`). -/
def valueText : JSVal → List Char
  | .undefined => ['n', 'u', 'l', 'l']
  | .null => ['n', 'u', 'l', 'l']
  | .bool true => ['t', 'r', 'u', 'e']
  | .bool false => ['f', 'a', 'l', 's', 'e']
  | .num n => intText n
  | .str s => quoteJSONString s
  | .arr xs => '[' :: elemsText true xs
  | .obj props => '\x7b' :: membersText true props
/-- The elements of an array, separated by commas, and the closing bracket. -/
def elemsText : Bool → List JSVal → List Char
  | _, [] => [']']
  | first, x :: rest =>
    (if first then [] else [',']) ++ (valueText x ++ elemsText false rest)
/-- The members of an object, separated by commas, and the closing brace; a
property whose value is `undefined` is left out. -/
def membersText : Bool → List (String × JSVal) → List Char
  | _, [] => ['\x7d']
  | first, (k, v) :: rest =>
    if v.isUndefined then membersText first rest
    else (if first then [] else [',']) ++
      (quoteJSONString k ++ (':' :: (valueText v ++ membersText false rest)))
end

/-- `JSON.stringify(v)`: a string, or `undefined` when `v` is `undefined`. -/
def stringify (v : JSVal) : JSVal :=
  if v.isUndefined then .undefined else .str (String.mk (valueText v))

end JSON

/-- JSON white space. -/
def isWs (c : Char) : Bool := c = ' ' || c = '\x09' || c = '\x0a' || c = '\x0d'

/-- Drop leading white space. -/
def skipWs : List Char → List Char
  | [] => []
  | c :: rest => if isWs c then skipWs rest else c :: rest

/-- Whether a character is a decimal digit. -/
def isDigit (c : Char) : Bool := decide (48 ≤ c.toNat) && decide (c.toNat ≤ 57)

/-- The number written by a list of decimal digits. -/
def digitsValue (ds : List Char) : Nat := ds.foldl (fun acc c => 10 * acc + (c.toNat - 48)) 0

/-- The value of a hexadecimal digit. -/
def hexVal (c : Char) : Option Nat :=
  if 48 ≤ c.toNat ∧ c.toNat ≤ 57 then some (c.toNat - 48)
  else if 97 ≤ c.toNat ∧ c.toNat ≤ 102 then some (c.toNat - 87)
  else if 65 ≤ c.toNat ∧ c.toNat ≤ 70 then some (c.toNat - 55)
  else none

/-- The character of a `\uXXXX` escape; a surrogate code unit is outside the model. -/
def hex4 (a b c d : Char) : Option Char :=
  match hexVal a, hexVal b, hexVal c, hexVal d with
  | some x, some y, some z, some w =>
    let n := ((x * 16 + y) * 16 + z) * 16 + w
    if 0xD800 ≤ n ∧ n ≤ 0xDFFF then none else some (Char.ofNat n)
  | _, _, _, _ => none

/-- The character of a single-character escape. -/
def unescape (e : Char) : Option Char :=
  if e = '\x22' then some '\x22'
  else if e = '\x5c' then some '\x5c'
  else if e = '/' then some '/'
  else if e = 'b' then some '\x08'
  else if e = 'f' then some '\x0c'
  else if e = 'n' then some '\x0a'
  else if e = 'r' then some '\x0d'
  else if e = 't' then some '\x09'
  else none

/-- Read a string after its opening quote: its characters and the text after the
closing quote. -/
def parseStringBody : Nat → List Char → Option (List Char × List Char)
  | 0, _ => none
  | _ + 1, [] => none
  | fuel + 1, c :: rest =>
    if c = '\x22' then some ([], rest)
    else if c = '\x5c' then
      match rest with
      | [] => none
      | e :: rest' =>
        if e = 'u' then
          match rest' with
          | a :: b :: c' :: d :: rest'' =>
            match hex4 a b c' d with
            | some ch => (parseStringBody fuel rest'').map fun r => (ch :: r.1, r.2)
            | none => none
          | _ => none
        else
          match unescape e with
          | some ch => (parseStringBody fuel rest').map fun r => (ch :: r.1, r.2)
          | none => none
    else if c.toNat < 32 then none
    else (parseStringBody fuel rest).map fun r => (c :: r.1, r.2)

/-- Read the literal `lit` at the start of the text. -/
def expectLit : List Char → List Char → Option (List Char)
  | [], cs => some cs
  | _ :: _, [] => none
  | l :: ls, c :: cs => if l = c then expectLit ls cs else none

/-- Read decimal digits without a leading zero; a fraction or an exponent after
them is outside the model. -/
def parseDigits (body : List Char) : Option (Nat × List Char) :=
  let ds := body.takeWhile isDigit
  let rest := body.dropWhile isDigit
  if ds = [] then none
  else if ds.head? = some '0' ∧ ds.length ≠ 1 then none
  else if rest.head? = some '.' ∨ rest.head? = some 'e' ∨ rest.head? = some 'E' then none
  else some (digitsValue ds, rest)

/-- Read an integer: an optional minus sign, then digits. -/
def parseNumber : List Char → Option (Int × List Char)
  | [] => none
  | c :: body =>
    if c = '-' then (parseDigits body).map fun r => (-(r.1 : Int), r.2)
    else (parseDigits (c :: body)).map fun r => ((r.1 : Int), r.2)

/-- Whether the text after a value is empty or starts with a comma, a closing
bracket or a closing brace. -/
def delimited : List Char → Bool
  | [] => true
  | c :: _ => c = ',' || c = ']' || c = '\x7d'

/-- `CreateDataProperty` on an ordinary object: an existing own property is
overwritten in place, a new one is appended. -/
def define (props : List (String × JSVal)) (k : String) (v : JSVal) :
    List (String × JSVal) :=
  if hasOwn k props then replaceOwn k v props else props ++ [(k, v)]

namespace JSON

mutual
/-- Read one JSON value: the value and the text after it. -/
def parseValue : Nat → List Char → Option (JSVal × List Char)
  | 0, _ => none
  | fuel + 1, cs =>
    match skipWs cs with
    | [] => none
    | c :: rest =>
      if c = '\x22' then
        (parseStringBody fuel rest).map fun r => (.str (String.mk r.1), r.2)
      else if c = '[' then (parseElems fuel true rest).map fun r => (.arr r.1, r.2)
      else if c = '\x7b' then (parseMembers fuel true [] rest).map fun r => (.obj r.1, r.2)
      else if c = 'n' then (expectLit ['u', 'l', 'l'] rest).map fun r => (.null, r)
      else if c = 't' then (expectLit ['r', 'u', 'e'] rest).map fun r => (.bool true, r)
      else if c = 'f' then (expectLit ['a', 'l', 's', 'e'] rest).map fun r => (.bool false, r)
      else (parseNumber (c :: rest)).map fun r => (.num r.1, r.2)
/-- Read the elements of an array up to its closing bracket; `first` tells that
no element has been read yet. -/
def parseElems : Nat → Bool → List Char → Option (List JSVal × List Char)
  | 0, _, _ => none
  | fuel + 1, first, cs =>
    match skipWs cs with
    | [] => none
    | c :: rest =>
      if c = ']' then some ([], rest)
      else
        match (if first then some (c :: rest) else if c = ',' then some rest else none) with
        | none => none
        | some cs' =>
          match parseValue fuel cs' with
          | none => none
          | some (v, r) => (parseElems fuel false r).map fun q => (v :: q.1, q.2)
/-- Read the members of an object up to its closing brace, defining each on the
properties read so far. -/
def parseMembers : Nat → Bool → List (String × JSVal) → List Char →
    Option (List (String × JSVal) × List Char)
  | 0, _, _, _ => none
  | fuel + 1, first, acc, cs =>
    match skipWs cs with
    | [] => none
    | c :: rest =>
      if c = '\x7d' then some (acc, rest)
      else
        match (if first then some (c :: rest) else if c = ',' then some (skipWs rest) else none) with
        | some (q :: afterQuote) =>
          if q = '\x22' then
            match parseStringBody fuel afterQuote with
            | none => none
            | some (k, r) =>
              match skipWs r with
              | colon :: r' =>
                if colon = ':' then
                  match parseValue fuel r' with
                  | none => none
                  | some (v, r'') => parseMembers fuel false (define acc (String.mk k) v) r''
                else none
              | [] => none
          else none
        | _ => none
end

/-- `JSON.parse(text)`: the value of a JSON text, nothing when the text is not
JSON (or has a number that is not an integer). -/
def parse (text : String) : Option JSVal :=
  match parseValue text.length text.data with
  | some (v, rest) => if skipWs rest = [] then some v else none
  | none => none

mutual
/-- The value that `JSON.parse` reads back from the text of a value in an array
position: `undefined` comes back as `null`, properties whose value is `undefined`
are gone. -/
def reread : JSVal → JSVal
  | .undefined => .null
  | .null => .null
  | .bool b => .bool b
  | .num n => .num n
  | .str s => .str s
  | .arr xs => .arr (rereadElems xs)
  | .obj props => .obj (rereadMembers [] props)
/-- The elements read back from the text of an array. -/
def rereadElems : List JSVal → List JSVal
  | [] => []
  | x :: rest => reread x :: rereadElems rest
/-- The properties read back from the text of an object, defined in turn on `acc`. -/
def rereadMembers : List (String × JSVal) → List (String × JSVal) → List (String × JSVal)
  | acc, [] => acc
  | acc, (k, v) :: rest =>
    if v.isUndefined then rereadMembers acc rest
    else rereadMembers (define acc k (reread v)) rest
end

end JSON

/-! ## The request builder -/

/-- The callback that `spec.buildRequests` maps over the bid requests (source
lines 77-109): the outbound descriptor of one bid request. -/
def buildRequest (env : PageSnapshot) (bid : JSVal) : JSResult JSVal := do
  let auctionId ← getProp bid "auctionId"
  let mediaType ← getProp bid "mediaType"
  let adUnitCode ← getProp bid "adUnitCode"
  let bidderRequestId ← getProp bid "bidderRequestId"
  let bidId ← getProp bid "bidId"
  let userIdAsEid ← getProp bid "userIdAsEid"
  let userIdAsEidObject ← handleUserIds userIdAsEid
  let banner ← getProp mediaType "banner"
  let tdidRepetition ← getTdidRepetition userIdAsEidObject
  let payload := JSVal.obj [
    ("ssspUid", bidderRequestId),
    ("adUnitCode", adUnitCode),
    ("auctionId", auctionId),
    ("bidId", bidId),
    ("mediaType", .obj [("banner", banner)]),
    ("site", .obj [
      ("page", .str env.PAGE),
      ("domain", .str env.DOMAIN),
      ("publisher", .obj [("domain", .str env.DOMAIN)])]),
    ("device", .obj [("w", .num env.WIDTH), ("h", .num env.HEIGHT)]),
    ("pubProvidedIds", userIdAsEidObject),
    ("tdidRepetition", .num tdidRepetition)]
  let payloadString := JSON.stringify payload
  pure (.obj [("method", .str "POST"), ("url", .str ENDPOINT_URL), ("data", payloadString)])

/-- The value of the expression `validBidRequests.map(bid => ...)` in
`spec.buildRequests`: the array of the descriptors of the bid requests. -/
def buildRequestsMapped (env : PageSnapshot) (validBidRequests : JSVal) : JSResult JSVal :=
  arrayMap validBidRequests (buildRequest env)

/-- `spec.buildRequests` (source lines 76-110): the function evaluates the `map`
expression as a statement and has no `return`, so a call that does not throw
returns `undefined`. -/
def buildRequests (env : PageSnapshot) (validBidRequests : JSVal) : JSResult JSVal := do
  let _ ← buildRequestsMapped env validBidRequests
  pure .undefined

/-- The object `payload` that the callback of `spec.buildRequests` composes (source
lines 78-102), before it is serialized. -/
def buildPayload (env : PageSnapshot) (bid : JSVal) : JSResult JSVal := do
  let auctionId ← getProp bid "auctionId"
  let mediaType ← getProp bid "mediaType"
  let adUnitCode ← getProp bid "adUnitCode"
  let bidderRequestId ← getProp bid "bidderRequestId"
  let bidId ← getProp bid "bidId"
  let userIdAsEid ← getProp bid "userIdAsEid"
  let userIdAsEidObject ← handleUserIds userIdAsEid
  let banner ← getProp mediaType "banner"
  let tdidRepetition ← getTdidRepetition userIdAsEidObject
  pure (JSVal.obj [
    ("ssspUid", bidderRequestId),
    ("adUnitCode", adUnitCode),
    ("auctionId", auctionId),
    ("bidId", bidId),
    ("mediaType", .obj [("banner", banner)]),
    ("site", .obj [
      ("page", .str env.PAGE),
      ("domain", .str env.DOMAIN),
      ("publisher", .obj [("domain", .str env.DOMAIN)])]),
    ("device", .obj [("w", .num env.WIDTH), ("h", .num env.HEIGHT)]),
    ("pubProvidedIds", userIdAsEidObject),
    ("tdidRepetition", .num tdidRepetition)])

/-! ## The sync registrar -/

/-- The fixed URL of the iframe sync (source line 156). -/
def IFRAME_SYNC_URL : String := "//acdn.adnxs.com/ib/static/usersync/v3/async_usersync.html?"

/-- `Number(b)` of a boolean: `1` for `true`, `0` for `false`. -/
def numberOfBool (b : Bool) : JSVal := .num (if b then 1 else 0)

/-- The variable `gdpr_params` of `spec.getUserSyncs` (source lines 146-151): when
`typeof gdprConsent.gdprApplies === 'boolean'` the template
`gdpr=${Number(gdprConsent.gdprApplies)}&gdpr_consent=${gdprConsent.consentString}`,
otherwise the template `gdpr_consent=${gdprConsent.consentString}`. -/
def gdpr_params (gdprConsent : JSVal) : JSResult String := do
  let gdprApplies ← getProp gdprConsent "gdprApplies"
  match gdprApplies with
  | .bool b =>
    let consentString ← getProp gdprConsent "consentString"
    pure ("gdpr=" ++ (numberOfBool b).toStr ++ "&gdpr_consent=" ++ consentString.toStr)
  | _ =>
    let consentString ← getProp gdprConsent "consentString"
    pure ("gdpr_consent=" ++ consentString.toStr)

/-- The sync descriptor `{ type, url }`. -/
def syncDescriptor (type url : String) : JSVal := .obj [("type", .str type), ("url", .str url)]

/-- `spec.getUserSyncs` (source lines 143-166). `serverResponses` is an array, as
its JSDoc type `ServerResponse[]` says; `uspConsent` is not read. The operator `+`
with a string on the right concatenates the `ToString` of the left operand. -/
def getUserSyncs (syncOptions : JSVal) (serverResponses : List JSVal)
    (gdprConsent _uspConsent : JSVal) : JSResult JSVal := do
  let params ← gdpr_params gdprConsent
  let iframeEnabled ← getProp syncOptions "iframeEnabled"
  let syncs : List JSVal :=
    if iframeEnabled.truthy then [syncDescriptor "iframe" (IFRAME_SYNC_URL ++ params)] else []
  let pixelEnabled ← getProp syncOptions "pixelEnabled"
  if pixelEnabled.truthy then
    match serverResponses with
    | [] => pure (.arr syncs)
    | first :: _ =>
      let body ← getProp first "body"
      let userSync ← getProp body "userSync"
      let url ← getProp userSync "url"
      pure (.arr (syncs ++ [syncDescriptor "image" (url.toStr ++ params)]))
  else pure (.arr syncs)

/-! ## Vocabulary of the statements -/

/-- The value of the field `k` of a record, `undefined` when it cannot be read. -/
def fieldOf (v : JSVal) (k : String) : JSVal :=
  match getProp v k with
  | .ok x => x
  | .error _ => .undefined

/-- The table key under which `handleUserIds` files an assertion: its `source`
converted to a property key. -/
def sourceKeyOf (item : JSVal) : String := (fieldOf item "source").toPropertyKey

/-- The `uids` of an assertion: the elements of its `uids` array, none when the
field is not an array. -/
def uidsOf (item : JSVal) : List JSVal :=
  match fieldOf item "uids" with
  | .arr us => us
  | _ => []

/-- An assertion that `handleUserIds` can process: a value other than `undefined`
and `null` whose `uids` field is absent or an array, no element of which is
`undefined` or `null`. -/
def wellShaped (item : JSVal) : Bool :=
  !item.isNullish &&
    match fieldOf item "uids" with
    | .undefined => true
    | .arr us => us.all fun u => !u.isNullish
    | _ => false

/-- An identity assertion of the data model: a record whose `source` is a string
and whose `uids` is absent or an array without an `undefined` or `null` entry. -/
def isAssertion (item : JSVal) : Bool :=
  wellShaped item &&
    match fieldOf item "source" with
    | .str _ => true
    | _ => false

/-- The ids that `handleUserIds` reads from an assertion: the `id` field of each
of its `uids`, in order. -/
def idsOf (item : JSVal) : List JSVal := (uidsOf item).map fun u => fieldOf u "id"

/-- The table after filing each assertion of a list, in order, under its source key. -/
def fileItems (t : List (String × JSVal)) (items : List JSVal) : List (String × JSVal) :=
  items.foldl (fun acc x => assign acc (sourceKeyOf x) (.arr (idsOf x))) t

/-- Whether a value is a primitive: not an array and not an object. -/
def isPrimitive : JSVal → Bool
  | .arr _ => false
  | .obj _ => false
  | _ => true

/-- A bid request that the callback of `buildRequests` can process: a record with
a `mediaType` that is not `undefined` or `null`, whose `userIdAsEid` is not an
array or is an array of well-shaped assertions, and whose `bidId` is a primitive. -/
def buildable (bid : JSVal) : Bool :=
  !bid.isNullish && !(fieldOf bid "mediaType").isNullish &&
    (match fieldOf bid "userIdAsEid" with
      | .arr items => items.all wellShaped
      | _ => true) &&
    isPrimitive (fieldOf bid "bidId")

/-- Every entry of a table is an array. -/
def AllArrays (t : List (String × JSVal)) : Prop :=
  ∀ k v, lookup k t = some v → ∃ xs, v = .arr xs

/-- The text `s` contains the text `sub`. -/
def containsText (s sub : String) : Prop := ∃ pre post : String, s = pre ++ sub ++ post

/-- The last assertion of a list that is filed under the key `k`. -/
def lastWithSource (k : String) : List JSVal → Option JSVal
  | [] => none
  | x :: rest =>
    match lastWithSource k rest with
    | some y => some y
    | none => if sourceKeyOf x = k then some x else none

/-- A bid request for which the callback of `buildRequests` composes a payload: a
record with a `mediaType` that is not `undefined` or `null`, whose `userIdAsEid` is
not an array or is an array of well-shaped assertions. -/
def composable (bid : JSVal) : Bool :=
  !bid.isNullish && !(fieldOf bid "mediaType").isNullish &&
    (match fieldOf bid "userIdAsEid" with
      | .arr items => items.all wellShaped
      | _ => true)

/-- The sequences of identifier strings of an identity table. -/
def idSeq (ids : List String) : JSVal := .arr (ids.map .str)

/-! ## Results and errors -/

@[simp] theorem ok_bind {α β : Type} (a : α) (f : α → JSResult β) :
    ((Except.ok a : JSResult α) >>= f) = f a := rfl

@[simp] theorem error_bind {α β : Type} (e : JSError) (f : α → JSResult β) :
    ((Except.error e : JSResult α) >>= f) = Except.error e := rfl

@[simp] theorem pure_eq_ok {α : Type} (a : α) : (pure a : JSResult α) = Except.ok a := rfl

@[simp] theorem map_ok {α β : Type} (g : α → β) (a : α) :
    (Except.map g (Except.ok a : JSResult α)) = Except.ok (g a) := rfl

@[simp] theorem map_error {α β : Type} (g : α → β) (e : JSError) :
    (Except.map g (Except.error e : JSResult α)) = Except.error e := rfl

/-! ## The reconciler on tables of sequences -/

theorem tdidLoop_of_baseline (t : List (String × JSVal)) (ps ids : List JSVal)
    (hp : lookup "pubcid.org" t = some (.arr ps)) :
    tdidLoop (.obj t) ids
      = .ok (if ids.any (fun id => ps.any (fun p => JSVal.strictEq p id)) then -5 else 0) := by
  induction ids with
  | nil => rfl
  | cons id rest ih =>
    simp only [tdidLoop, getProp, hp, Option.getD_some, arraySome, List.any_cons, ok_bind]
    by_cases hhit : ps.any (fun p => JSVal.strictEq p id) = true
    · simp [hhit]
    · simp [hhit, ih]

theorem tdidLoop_no_baseline (t : List (String × JSVal)) (a : JSVal) (as : List JSVal)
    (hp : lookup "pubcid.org" t = none) :
    tdidLoop (.obj t) (a :: as) = .error .typeError := by
  simp [tdidLoop, getProp, hp, arraySome]

theorem getTdidRepetition_absent (t : List (String × JSVal))
    (ha : lookup "adserver.org" t = none) : getTdidRepetition (.obj t) = .ok (-2) := by
  simp [getTdidRepetition, JSVal.isUndefined, getProp, ha, JSVal.truthy]

theorem getTdidRepetition_empty (t : List (String × JSVal))
    (ha : lookup "adserver.org" t = some (.arr [])) : getTdidRepetition (.obj t) = .ok (-1) := by
  simp [getTdidRepetition, JSVal.isUndefined, getProp, ha, JSVal.truthy]

theorem getTdidRepetition_nonempty (t : List (String × JSVal)) (a : JSVal) (as : List JSVal)
    (ha : lookup "adserver.org" t = some (.arr (a :: as))) :
    getTdidRepetition (.obj t) = tdidLoop (.obj t) (a :: as) := by
  have : ¬ ((as.length : Int) + 1 = 0) := by omega
  simp [getTdidRepetition, JSVal.isUndefined, getProp, ha, JSVal.truthy, iterate, this]

theorem any_strictEq_idSeq (ps l : List String) :
    ((l.map JSVal.str).any fun id => (ps.map JSVal.str).any fun p => JSVal.strictEq p id) = true
      ↔ ∃ a ∈ l, a ∈ ps := by
  simp only [List.any_eq_true, List.mem_map]
  constructor
  · rintro ⟨_, ⟨a, ha, rfl⟩, _, ⟨p, hp, rfl⟩, heq⟩
    have : p = a := by simpa [JSVal.strictEq] using heq
    exact ⟨a, ha, this ▸ hp⟩
  · rintro ⟨a, ha, hp⟩
    exact ⟨_, ⟨a, ha, rfl⟩, _, ⟨a, hp, rfl⟩, by simp [JSVal.strictEq]⟩

/-- C1: on a table whose 'pubcid.org' entry is a sequence of identifiers and whose
'adserver.org' entry is absent or a sequence of identifiers, `getTdidRepetition`
returns -2 iff 'adserver.org' is absent, -1 iff it is present and empty, -5 iff it
is present, non-empty and shares an identifier (same string) with the 'pubcid.org'
sequence, and 0 otherwise; the code is one of these four. -/
theorem getTdidRepetition_four_cases (t : List (String × JSVal)) (ps : List String)
    (ads : Option (List String))
    (hp : lookup "pubcid.org" t = some (idSeq ps))
    (ha : lookup "adserver.org" t = ads.map idSeq) :
    ∃ c : Int, getTdidRepetition (.obj t) = .ok c ∧
      (c = -2 ∨ c = -1 ∨ c = -5 ∨ c = 0) ∧
      (c = -2 ↔ ads = none) ∧
      (c = -1 ↔ ads = some []) ∧
      (c = -5 ↔ ∃ l, ads = some l ∧ l ≠ [] ∧ ∃ a ∈ l, a ∈ ps) ∧
      (c = 0 ↔ ¬ ads = none ∧ ¬ ads = some [] ∧
        ¬ ∃ l, ads = some l ∧ l ≠ [] ∧ ∃ a ∈ l, a ∈ ps) := by
  match ads, ha with
  | none, ha =>
    exact ⟨-2, getTdidRepetition_absent t ha, by simp⟩
  | some [], ha =>
    exact ⟨-1, getTdidRepetition_empty t ha, by simp⟩
  | some (a :: as), ha =>
    have hrun := getTdidRepetition_nonempty t (.str a) (as.map .str) ha
    rw [tdidLoop_of_baseline t (ps.map .str) _ hp] at hrun
    have hany := any_strictEq_idSeq ps (a :: as)
    simp only [List.map_cons] at hany
    by_cases hx : ∃ b ∈ a :: as, b ∈ ps
    · rw [if_pos (hany.mpr hx)] at hrun
      refine ⟨-5, hrun, by simp, by simp, by simp, ?_, ?_⟩
      · exact ⟨fun _ => ⟨a :: as, rfl, by simp, hx⟩, fun _ => rfl⟩
      · exact ⟨fun h => absurd h (by decide),
          fun h => absurd ⟨a :: as, rfl, by simp, hx⟩ h.2.2⟩
    · rw [if_neg (fun h => hx (hany.mp h))] at hrun
      refine ⟨0, hrun, by simp, by simp, by simp, ?_, ?_⟩
      · refine ⟨fun h => absurd h (by decide), ?_⟩
        rintro ⟨l, hl, _, hex⟩
        cases hl
        exact absurd hex hx
      · refine ⟨fun _ => ⟨by simp, by simp, ?_⟩, fun _ => rfl⟩
        rintro ⟨l, hl, _, hex⟩
        cases hl
        exact absurd hex hx

/-- Witness for C1: the table `{'pubcid.org': ['A'], 'adserver.org': ['A']}`. -/
theorem getTdidRepetition_four_cases_witness :
    ∃ c : Int,
      getTdidRepetition (.obj [("pubcid.org", idSeq ["A"]), ("adserver.org", idSeq ["A"])])
        = .ok c ∧
      (c = -2 ∨ c = -1 ∨ c = -5 ∨ c = 0) ∧
      (c = -2 ↔ some ["A"] = none) ∧
      (c = -1 ↔ some ["A"] = some []) ∧
      (c = -5 ↔ ∃ l, some ["A"] = some l ∧ l ≠ [] ∧ ∃ a ∈ l, a ∈ ["A"]) ∧
      (c = 0 ↔ ¬ some ["A"] = none ∧ ¬ some ["A"] = some [] ∧
        ¬ ∃ l, some ["A"] = some l ∧ l ≠ [] ∧ ∃ a ∈ l, a ∈ ["A"]) :=
  getTdidRepetition_four_cases
    [("pubcid.org", idSeq ["A"]), ("adserver.org", idSeq ["A"])] ["A"] (some ["A"]) rfl rfl

/-- Counterexample for C2: on `{'adserver.org': ['B']}`, a table without the
'pubcid.org' key, `getTdidRepetition` raises a `TypeError` and does not return 0. -/
theorem getTdidRepetition_missing_baseline_counterexample :
    lookup "pubcid.org" [("adserver.org", idSeq ["B"])] = none ∧
    lookup "adserver.org" [("adserver.org", idSeq ["B"])] = some (idSeq ["B"]) ∧
    getTdidRepetition (.obj [("adserver.org", idSeq ["B"])]) = .error .typeError ∧
    getTdidRepetition (.obj [("adserver.org", idSeq ["B"])]) ≠ .ok 0 := by
  refine ⟨rfl, rfl, rfl, ?_⟩
  intro h
  have h2 : getTdidRepetition (.obj [("adserver.org", idSeq ["B"])]) = .error .typeError := rfl
  rw [h2] at h
  cases h

/-- C2 (amended): on a table without the 'pubcid.org' key, `getTdidRepetition`
raises a `TypeError` whenever 'adserver.org' maps to a non-empty sequence; the
missing baseline is tolerated only where it is never read: the result is -2 when
'adserver.org' is absent and -1 when it maps to the empty sequence. -/
theorem getTdidRepetition_missing_baseline (t : List (String × JSVal))
    (hp : lookup "pubcid.org" t = none) :
    (∀ a as, lookup "adserver.org" t = some (.arr (a :: as)) →
      getTdidRepetition (.obj t) = .error .typeError) ∧
    (lookup "adserver.org" t = none → getTdidRepetition (.obj t) = .ok (-2)) ∧
    (lookup "adserver.org" t = some (.arr []) → getTdidRepetition (.obj t) = .ok (-1)) := by
  refine ⟨fun a as ha => ?_, getTdidRepetition_absent t, getTdidRepetition_empty t⟩
  rw [getTdidRepetition_nonempty t a as ha]
  exact tdidLoop_no_baseline t a as hp

/-- Witness for C2 (amended): the table `{'adserver.org': ['B']}`. -/
theorem getTdidRepetition_missing_baseline_witness :
    lookup "pubcid.org" [("adserver.org", idSeq ["B"])] = none ∧
    ((∀ a as, lookup "adserver.org" [("adserver.org", idSeq ["B"])] = some (.arr (a :: as)) →
      getTdidRepetition (.obj [("adserver.org", idSeq ["B"])]) = .error .typeError) ∧
    (lookup "adserver.org" [("adserver.org", idSeq ["B"])] = none →
      getTdidRepetition (.obj [("adserver.org", idSeq ["B"])]) = .ok (-2)) ∧
    (lookup "adserver.org" [("adserver.org", idSeq ["B"])] = some (.arr []) →
      getTdidRepetition (.obj [("adserver.org", idSeq ["B"])]) = .ok (-1))) :=
  ⟨rfl, getTdidRepetition_missing_baseline [("adserver.org", idSeq ["B"])] rfl⟩

/-! ## The normalizer -/

theorem handleUserIds_eq_initial (v : JSVal) (h : ∀ xs, v ≠ .arr xs) :
    handleUserIds v = .ok (.obj initialTable) := by
  cases v with
  | arr xs => exact absurd rfl (h xs)
  | _ => rfl

/-- C3: on every input that is not an array, `handleUserIds` returns the table
whose only key is 'pubcid.org', mapped to the empty sequence. -/
theorem handleUserIds_of_non_array (v : JSVal) (h : ∀ xs, v ≠ .arr xs) :
    handleUserIds v = .ok (.obj [("pubcid.org", .arr [])]) := by
  cases v with
  | arr xs => exact absurd rfl (h xs)
  | _ => rfl

/-- Witness for C3: `undefined`, `null`, a number, a string and a plain object. -/
theorem handleUserIds_of_non_array_witness :
    handleUserIds .undefined = .ok (.obj [("pubcid.org", .arr [])]) ∧
    handleUserIds .null = .ok (.obj [("pubcid.org", .arr [])]) ∧
    handleUserIds (.num 7) = .ok (.obj [("pubcid.org", .arr [])]) ∧
    handleUserIds (.str "pubcid.org") = .ok (.obj [("pubcid.org", .arr [])]) ∧
    handleUserIds (.obj [("source", .str "adserver.org")])
      = .ok (.obj [("pubcid.org", .arr [])]) :=
  ⟨handleUserIds_of_non_array _ (fun _ h => nomatch h),
   handleUserIds_of_non_array _ (fun _ h => nomatch h),
   handleUserIds_of_non_array _ (fun _ h => nomatch h),
   handleUserIds_of_non_array _ (fun _ h => nomatch h),
   handleUserIds_of_non_array _ (fun _ h => nomatch h)⟩

theorem getProp_of_not_nullish (v : JSVal) (k : String) (h : v.isNullish = false) :
    getProp v k = .ok (fieldOf v k) := by
  cases v <;> simp_all [JSVal.isNullish, getProp, fieldOf]

theorem fieldOf_of_nullish (v : JSVal) (k : String) (h : v.isNullish = true) :
    fieldOf v k = .undefined := by
  cases v <;> simp_all [JSVal.isNullish, getProp, fieldOf]

theorem mapElems_id (us : List JSVal) (h : ∀ u ∈ us, u.isNullish = false) :
    mapElems (fun ob => getProp ob "id") us = .ok (us.map fun u => fieldOf u "id") := by
  induction us with
  | nil => rfl
  | cons u rest ih =>
    have hu := getProp_of_not_nullish u "id" (h u (List.mem_cons_self _ _))
    have hr := ih (fun x hx => h x (List.mem_cons_of_mem _ hx))
    simp [mapElems, hu, hr]

/-- One round of the loop on a well-shaped assertion: the ids of its `uids` are
assigned under its source key. -/
theorem handleItem_wellShaped (t : List (String × JSVal)) (item : JSVal)
    (h : wellShaped item = true) :
    handleItem t item = .ok (assign t (sourceKeyOf item) (.arr (idsOf item))) := by
  unfold wellShaped at h
  have hn : item.isNullish = false := by
    cases hi : item.isNullish <;> simp_all
  have hs := getProp_of_not_nullish item "source" hn
  have hq := getProp_of_not_nullish item "uids" hn
  cases hu : fieldOf item "uids" with
  | undefined =>
    simp [handleItem, hs, hq, hu, JSVal.isUndefined, arrayMap, mapElems, uidsOf, idsOf,
      sourceKeyOf]
  | arr us =>
    have hall : ∀ u ∈ us, u.isNullish = false := by
      simpa [hu, hn] using h
    simp [handleItem, hs, hq, hu, JSVal.isUndefined, arrayMap, mapElems_id us hall, uidsOf,
      idsOf, sourceKeyOf]
  | _ => simp [hu, hn] at h

theorem handleItems_wellShaped (items : List JSVal) (t : List (String × JSVal))
    (h : ∀ x ∈ items, wellShaped x = true) :
    handleItems t items = .ok (fileItems t items) := by
  induction items generalizing t with
  | nil => rfl
  | cons x rest ih =>
    have hx := handleItem_wellShaped t x (h x (List.mem_cons_self _ _))
    have hr := ih (assign t (sourceKeyOf x) (.arr (idsOf x)))
      (fun y hy => h y (List.mem_cons_of_mem _ hy))
    simp only [handleItems, hx, ok_bind]
    exact hr

/-! ### Own-property lookup after an assignment -/

theorem lookup_replaceOwn_same (k : String) (v : JSVal) (t : List (String × JSVal))
    (h : hasOwn k t = true) : lookup k (replaceOwn k v t) = some v := by
  induction t with
  | nil => simp [hasOwn, lookup] at h
  | cons p rest ih =>
    obtain ⟨k', v'⟩ := p
    by_cases hk : k' = k
    · simp [replaceOwn, lookup, hk]
    · have : hasOwn k rest = true := by simpa [hasOwn, lookup, hk] using h
      simp [replaceOwn, lookup, hk, ih this]

theorem lookup_replaceOwn_other (k k' : String) (v : JSVal) (t : List (String × JSVal))
    (hne : k' ≠ k) : lookup k' (replaceOwn k v t) = lookup k' t := by
  induction t with
  | nil => rfl
  | cons p rest ih =>
    obtain ⟨k₁, v₁⟩ := p
    by_cases hk : k₁ = k
    · have : ¬ k = k' := fun h => hne h.symm
      simp [replaceOwn, lookup, hk, this]
    · by_cases hk' : k₁ = k'
      · subst hk'
        simp [replaceOwn, lookup, hk]
      · simp [replaceOwn, lookup, hk, hk', ih]

theorem lookup_append_single (k k' : String) (v : JSVal) (t : List (String × JSVal)) :
    lookup k' (t ++ [(k, v)])
      = match lookup k' t with
        | some w => some w
        | none => if k = k' then some v else none := by
  induction t with
  | nil => simp [lookup]
  | cons p rest ih =>
    obtain ⟨k₁, v₁⟩ := p
    by_cases hk : k₁ = k' <;> simp [lookup, hk, ih]

theorem lookup_assign_same (k : String) (v : JSVal) (t : List (String × JSVal))
    (hk : k ≠ "__proto__") : lookup k (assign t k v) = some v := by
  unfold assign
  by_cases hown : hasOwn k t = true
  · simp [hown, lookup_replaceOwn_same k v t hown]
  · have hnone : lookup k t = none := by
      simpa [hasOwn] using hown
    simp [hown, hk, lookup_append_single, hnone]

theorem lookup_assign_other (k k' : String) (v : JSVal) (t : List (String × JSVal))
    (hne : k' ≠ k) : lookup k' (assign t k v) = lookup k' t := by
  unfold assign
  have hne' : ¬ k = k' := fun h => hne h.symm
  by_cases hown : hasOwn k t = true
  · simp [hown, lookup_replaceOwn_other k k' v t hne]
  · by_cases hp : k = "__proto__"
    · rw [if_neg hown, if_pos hp]
    · simp only [hown, hp, if_false, lookup_append_single, hne', Bool.false_eq_true]
      cases lookup k' t <;> rfl

theorem lookup_assign_cases (k k' : String) (v w : JSVal) (t : List (String × JSVal))
    (h : lookup k' (assign t k v) = some w) : w = v ∨ lookup k' t = some w := by
  by_cases hne : k' = k
  · subst hne
    unfold assign at h
    by_cases hown : hasOwn k' t = true
    · rw [if_pos hown, lookup_replaceOwn_same k' v t hown] at h
      exact Or.inl (Option.some.inj h).symm
    · have hnone : lookup k' t = none := by simpa [hasOwn] using hown
      by_cases hp : k' = "__proto__"
      · rw [if_neg hown, if_pos hp, hnone] at h
        cases h
      · rw [if_neg hown, if_neg hp, lookup_append_single, hnone] at h
        simp at h
        exact Or.inl h.symm
  · rw [lookup_assign_other k k' v t hne] at h
    exact Or.inr h

theorem lookup_assign_isSome (k k' : String) (v : JSVal) (t : List (String × JSVal))
    (h : (lookup k' t).isSome = true) : (lookup k' (assign t k v)).isSome = true := by
  by_cases hne : k' = k
  · subst hne
    have hown : hasOwn k' t = true := h
    simp [assign, hown, lookup_replaceOwn_same k' v t hown]
  · rw [lookup_assign_other k k' v t hne]
    exact h

/-! ### Own-property lookup in the table of filed assertions -/

theorem fileItems_append (t : List (String × JSVal)) (xs ys : List JSVal) :
    fileItems t (xs ++ ys) = fileItems (fileItems t xs) ys := by
  simp [fileItems, List.foldl_append]

theorem fileItems_cons (t : List (String × JSVal)) (x : JSVal) (ys : List JSVal) :
    fileItems t (x :: ys) = fileItems (assign t (sourceKeyOf x) (.arr (idsOf x))) ys := rfl

theorem lookup_fileItems_of_no_source (k : String) (items : List JSVal)
    (t : List (String × JSVal)) (h : ∀ y ∈ items, sourceKeyOf y ≠ k) :
    lookup k (fileItems t items) = lookup k t := by
  induction items generalizing t with
  | nil => rfl
  | cons x rest ih =>
    rw [fileItems_cons, ih _ (fun y hy => h y (List.mem_cons_of_mem _ hy))]
    exact lookup_assign_other _ _ _ _ (fun e => h x (List.mem_cons_self _ _) e.symm)

theorem lookup_fileItems_last (t : List (String × JSVal)) (pre post : List JSVal) (x : JSVal)
    (hpost : ∀ y ∈ post, sourceKeyOf y ≠ sourceKeyOf x)
    (hk : sourceKeyOf x ≠ "__proto__") :
    lookup (sourceKeyOf x) (fileItems t (pre ++ x :: post)) = some (.arr (idsOf x)) := by
  rw [fileItems_append, fileItems_cons, lookup_fileItems_of_no_source _ _ _ hpost]
  exact lookup_assign_same _ _ _ hk

theorem handleUserIds_wellShaped (items : List JSVal)
    (h : ∀ x ∈ items, wellShaped x = true) :
    handleUserIds (.arr items) = .ok (.obj (fileItems initialTable items)) := by
  simp [handleUserIds, handleItems_wellShaped items initialTable h]

theorem wellShaped_of_isAssertion (item : JSVal) (h : isAssertion item = true) :
    wellShaped item = true := by
  simp only [isAssertion, Bool.and_eq_true] at h
  exact h.1

/-- Counterexample for C4: two assertions share the source '__proto__'; the table
returned has the key 'pubcid.org' only, and no entry for the shared source. -/
theorem handleUserIds_last_wins_counterexample :
    isAssertion (.obj [("source", .str "__proto__"), ("uids", .arr [.obj [("id", .str "A")]])])
      = true ∧
    isAssertion (.obj [("source", .str "__proto__"), ("uids", .arr [.obj [("id", .str "B")]])])
      = true ∧
    handleUserIds (.arr [
        .obj [("source", .str "__proto__"), ("uids", .arr [.obj [("id", .str "A")]])],
        .obj [("source", .str "__proto__"), ("uids", .arr [.obj [("id", .str "B")]])]])
      = .ok (.obj [("pubcid.org", .arr [])]) ∧
    lookup "__proto__" [("pubcid.org", JSVal.arr [])] = none ∧
    lookup "__proto__" [("pubcid.org", JSVal.arr [])] ≠ some (.arr [.str "B"]) := by
  refine ⟨rfl, rfl, rfl, rfl, ?_⟩
  intro h
  cases h

/-- C4 (amended): when two elements of an array of assertions share a source other
than '__proto__' and no later element has it, the entry of the table for that
source is the list of the ids of the uids of the later of the two (the last
element with that source). -/
theorem handleUserIds_last_wins (pre mid post : List JSVal) (x y : JSVal)
    (hshape : ∀ z ∈ pre ++ x :: (mid ++ y :: post), isAssertion z = true)
    (_hsame : sourceKeyOf x = sourceKeyOf y)
    (hlast : ∀ z ∈ post, sourceKeyOf z ≠ sourceKeyOf y)
    (hk : sourceKeyOf y ≠ "__proto__") :
    ∃ t, handleUserIds (.arr (pre ++ x :: (mid ++ y :: post))) = .ok (.obj t) ∧
      lookup (sourceKeyOf y) t = some (.arr ((uidsOf y).map fun u => fieldOf u "id")) := by
  refine ⟨_, handleUserIds_wellShaped _ (fun z hz => wellShaped_of_isAssertion z (hshape z hz)),
    ?_⟩
  have hsplit : pre ++ x :: (mid ++ y :: post) = (pre ++ x :: mid) ++ y :: post := by simp
  rw [hsplit]
  exact lookup_fileItems_last initialTable (pre ++ x :: mid) post y hlast hk

/-- Witness for C4 (amended): two assertions with source 'adserver.org', ids 'A'
then 'B'. -/
theorem handleUserIds_last_wins_witness :
    ∃ t, handleUserIds (.arr [
        .obj [("source", .str "adserver.org"), ("uids", .arr [.obj [("id", .str "A")]])],
        .obj [("source", .str "adserver.org"), ("uids", .arr [.obj [("id", .str "B")]])]])
        = .ok (.obj t) ∧
      lookup "adserver.org" t = some (.arr [.str "B"]) :=
  handleUserIds_last_wins [] [] []
    (.obj [("source", .str "adserver.org"), ("uids", .arr [.obj [("id", .str "A")]])])
    (.obj [("source", .str "adserver.org"), ("uids", .arr [.obj [("id", .str "B")]])])
    (by decide) rfl (by decide) (by decide)

/-- Counterexample for C5: two assertions with the distinct sources 'pubcid.org' and
'__proto__'; the table returned has no entry at the source '__proto__'. -/
theorem handleUserIds_entry_of_distinct_sources_counterexample :
    isAssertion (.obj [("source", .str "pubcid.org"), ("uids", .arr [.obj [("id", .str "P")]])])
      = true ∧
    isAssertion (.obj [("source", .str "__proto__"), ("uids", .arr [.obj [("id", .str "A")]])])
      = true ∧
    sourceKeyOf (.obj [("source", .str "pubcid.org"), ("uids", .arr [.obj [("id", .str "P")]])])
      ≠ sourceKeyOf (.obj [("source", .str "__proto__"),
          ("uids", .arr [.obj [("id", .str "A")]])]) ∧
    handleUserIds (.arr [
        .obj [("source", .str "pubcid.org"), ("uids", .arr [.obj [("id", .str "P")]])],
        .obj [("source", .str "__proto__"), ("uids", .arr [.obj [("id", .str "A")]])]])
      = .ok (.obj [("pubcid.org", .arr [.str "P"])]) ∧
    lookup "__proto__" [("pubcid.org", JSVal.arr [.str "P"])] = none ∧
    lookup "__proto__" [("pubcid.org", JSVal.arr [.str "P"])] ≠ some (.arr [.str "A"]) := by
  refine ⟨rfl, rfl, by decide, rfl, rfl, ?_⟩
  intro h
  cases h

/-- C5 (amended): for an array of assertions with pairwise distinct sources, the
entry of the table at the source of each element, '__proto__' apart, is the list of
the `id` fields of the element's uids, in the order of `uids` and of the same
length; it is the empty sequence when the element has no `uids` field. -/
theorem handleUserIds_entry_of_distinct_sources (items : List JSVal) (x : JSVal)
    (hshape : ∀ z ∈ items, isAssertion z = true)
    (hdistinct : items.Pairwise fun a b => sourceKeyOf a ≠ sourceKeyOf b)
    (hx : x ∈ items) (hk : sourceKeyOf x ≠ "__proto__") :
    ∃ t, handleUserIds (.arr items) = .ok (.obj t) ∧
      lookup (sourceKeyOf x) t = some (.arr ((uidsOf x).map fun u => fieldOf u "id")) ∧
      ((uidsOf x).map fun u => fieldOf u "id").length = (uidsOf x).length ∧
      (fieldOf x "uids" = .undefined → lookup (sourceKeyOf x) t = some (.arr [])) := by
  obtain ⟨pre, post, rfl⟩ := List.append_of_mem hx
  have hpost : ∀ y ∈ post, sourceKeyOf y ≠ sourceKeyOf x := by
    intro y hy
    have h2 := (List.pairwise_append.mp hdistinct).2.1
    exact fun e => (List.pairwise_cons.mp h2).1 y hy e.symm
  have hentry := lookup_fileItems_last initialTable pre post x hpost hk
  refine ⟨_, handleUserIds_wellShaped _
    (fun z hz => wellShaped_of_isAssertion z (hshape z hz)), hentry, by simp, ?_⟩
  intro hu
  rw [hentry]
  simp [idsOf, uidsOf, hu]

/-- Witness for C5 (amended): three assertions with distinct sources, the last
without `uids`. -/
theorem handleUserIds_entry_of_distinct_sources_witness :
    ∃ t, handleUserIds (.arr [
        .obj [("source", .str "pubcid.org"), ("uids", .arr [.obj [("id", .str "P")]])],
        .obj [("source", .str "adserver.org"),
          ("uids", .arr [.obj [("id", .str "A"), ("atype", .num 1)], .obj [("id", .str "B")]])],
        .obj [("source", .str "id5-sync.com")]]) = .ok (.obj t) ∧
      lookup "adserver.org" t = some (.arr [.str "A", .str "B"]) ∧
      [JSVal.str "A", JSVal.str "B"].length
        = [JSVal.obj [("id", .str "A"), ("atype", .num 1)], JSVal.obj [("id", .str "B")]].length ∧
      (JSVal.arr [.obj [("id", .str "A"), ("atype", .num 1)], .obj [("id", .str "B")]]
          = .undefined → lookup "adserver.org" t = some (.arr [])) :=
  handleUserIds_entry_of_distinct_sources _
    (.obj [("source", .str "adserver.org"),
      ("uids", .arr [.obj [("id", .str "A"), ("atype", .num 1)], .obj [("id", .str "B")]])])
    (by decide) (by decide) (by simp) (by decide)

theorem handleItem_faults_on_malformed_uids (x : JSVal) (t : List (String × JSVal))
    (hpresent : fieldOf x "uids" ≠ .undefined) (hnot : ∀ us, fieldOf x "uids" ≠ .arr us) :
    handleItem t x = .error .typeError := by
  have hn : x.isNullish = false := by
    cases hi : x.isNullish
    · rfl
    · exact absurd (fieldOf_of_nullish x "uids" hi) hpresent
  have hs := getProp_of_not_nullish x "source" hn
  have hq := getProp_of_not_nullish x "uids" hn
  have hmap : arrayMap (fieldOf x "uids") (fun ob => getProp ob "id") = .error .typeError := by
    cases hu : fieldOf x "uids" with
    | arr us => exact absurd hu (hnot us)
    | _ => rfl
  have hund : (fieldOf x "uids").isUndefined = false := by
    cases hu : fieldOf x "uids" with
    | undefined => exact absurd hu hpresent
    | _ => rfl
  simp [handleItem, hs, hq, hund, hmap]

/-- C6 (what the code does): an array that contains an element whose `uids` field
is present but is not an array makes `handleUserIds` raise a `TypeError`; no table
is returned. -/
theorem handleUserIds_faults_on_malformed_uids (items : List JSVal) (x : JSVal)
    (hx : x ∈ items) (hpresent : fieldOf x "uids" ≠ .undefined)
    (hnot : ∀ us, fieldOf x "uids" ≠ .arr us) :
    handleUserIds (.arr items) = .error .typeError := by
  have hloop : ∀ t, handleItems t items = .error .typeError := by
    induction items with
    | nil => cases hx
    | cons y rest ih =>
      intro t
      by_cases hy : x = y
      · subst hy
        simp [handleItems, handleItem_faults_on_malformed_uids x t hpresent hnot]
      · have hmem : x ∈ rest := by
          rcases List.mem_cons.mp hx with h | h
          · exact absurd h hy
          · exact h
        cases hstep : handleItem t y with
        | error e =>
          cases e
          simp [handleItems, hstep]
        | ok next => simp [handleItems, hstep, ih hmem next]
  simp [handleUserIds, hloop initialTable]

/-- Witness for C6: `uids` that is `null`, a number, a plain object. -/
theorem handleUserIds_faults_on_malformed_uids_witness :
    handleUserIds (.arr [.obj [("source", .str "adserver.org"), ("uids", .null)]])
      = .error .typeError ∧
    handleUserIds (.arr [.obj [("source", .str "adserver.org"), ("uids", .num 3)]])
      = .error .typeError ∧
    handleUserIds (.arr [.obj [("source", .str "pubcid.org"), ("uids", .arr [])],
        .obj [("source", .str "adserver.org"), ("uids", .obj [("id", .str "A")])]])
      = .error .typeError :=
  ⟨handleUserIds_faults_on_malformed_uids _
      (.obj [("source", .str "adserver.org"), ("uids", .null)])
      (by simp) (by simp [fieldOf, getProp, lookup]) (by simp [fieldOf, getProp, lookup]),
   handleUserIds_faults_on_malformed_uids _
      (.obj [("source", .str "adserver.org"), ("uids", .num 3)])
      (by simp) (by simp [fieldOf, getProp, lookup]) (by simp [fieldOf, getProp, lookup]),
   handleUserIds_faults_on_malformed_uids _
      (.obj [("source", .str "adserver.org"), ("uids", .obj [("id", .str "A")])])
      (by simp) (by simp [fieldOf, getProp, lookup]) (by simp [fieldOf, getProp, lookup])⟩

/-! ### The baseline key of the normalized table -/

theorem allArrays_initialTable : AllArrays initialTable := by
  intro k v h
  by_cases hk : "pubcid.org" = k
  · simp [initialTable, lookup, hk] at h
    exact ⟨[], h.symm⟩
  · simp [initialTable, lookup, hk] at h

theorem allArrays_assign (t : List (String × JSVal)) (k : String) (xs : List JSVal)
    (h : AllArrays t) : AllArrays (assign t k (.arr xs)) := by
  intro k' w hw
  rcases lookup_assign_cases k k' (.arr xs) w t hw with rfl | hold
  · exact ⟨xs, rfl⟩
  · exact h k' w hold

theorem allArrays_fileItems (items : List JSVal) (t : List (String × JSVal))
    (h : AllArrays t) : AllArrays (fileItems t items) := by
  induction items generalizing t with
  | nil => exact h
  | cons x rest ih =>
    rw [fileItems_cons]
    exact ih _ (allArrays_assign t _ _ h)

theorem lookup_fileItems_isSome (k : String) (items : List JSVal) (t : List (String × JSVal))
    (h : (lookup k t).isSome = true) : (lookup k (fileItems t items)).isSome = true := by
  induction items generalizing t with
  | nil => exact h
  | cons x rest ih =>
    rw [fileItems_cons]
    exact ih _ (lookup_assign_isSome _ _ _ _ h)

/-- On a table whose entries are all arrays and that has the baseline key,
`getTdidRepetition` returns one of its four codes. -/
theorem getTdidRepetition_total_of_allArrays (t : List (String × JSVal)) (ps : List JSVal)
    (hall : AllArrays t) (hp : lookup "pubcid.org" t = some (.arr ps)) :
    ∃ c : Int, getTdidRepetition (.obj t) = .ok c ∧ (c = -2 ∨ c = -1 ∨ c = -5 ∨ c = 0) := by
  cases ha : lookup "adserver.org" t with
  | none => exact ⟨-2, getTdidRepetition_absent t ha, by simp⟩
  | some v =>
    obtain ⟨as, rfl⟩ := hall _ v ha
    cases as with
    | nil => exact ⟨-1, getTdidRepetition_empty t ha, by simp⟩
    | cons a rest =>
      rw [getTdidRepetition_nonempty t a rest ha, tdidLoop_of_baseline t ps _ hp]
      by_cases hhit : ((a :: rest).any fun id => ps.any fun p => JSVal.strictEq p id) = true
      · exact ⟨-5, by rw [if_pos hhit], by simp⟩
      · exact ⟨0, by rw [if_neg hhit], by simp⟩

/-- Counterexample for C7: an array of one assertion whose `uids` is the sequence
`[null]`; `handleUserIds` raises a `TypeError` (reading `id` of `null`) and returns
no table. -/
theorem handleUserIds_baseline_populated_counterexample :
    fieldOf (.obj [("source", .str "adserver.org"), ("uids", .arr [.null])]) "uids"
      = .arr [.null] ∧
    handleUserIds (.arr [.obj [("source", .str "adserver.org"), ("uids", .arr [.null])]])
      = .error .typeError ∧
    ¬ ∃ t, handleUserIds (.arr [.obj [("source", .str "adserver.org"), ("uids", .arr [.null])]])
      = .ok (.obj t) := by
  refine ⟨rfl, rfl, ?_⟩
  rintro ⟨t, ht⟩
  have herr : handleUserIds
      (.arr [.obj [("source", .str "adserver.org"), ("uids", .arr [.null])]])
      = .error .typeError := rfl
  rw [herr] at ht
  cases ht

/-- C7 (amended): for every input that is not an array, and for every array of
assertions whose uids are absent or sequences without a `null` or `undefined`
entry, the table returned by `handleUserIds` has the key 'pubcid.org' mapped to a
sequence (the empty one when no element has the source 'pubcid.org'), and
`getTdidRepetition` returns a code on that table. -/
theorem handleUserIds_baseline_populated (v : JSVal)
    (h : ∀ items, v = .arr items → ∀ x ∈ items, isAssertion x = true) :
    ∃ (t : List (String × JSVal)) (ps : List JSVal) (c : Int),
      handleUserIds v = .ok (.obj t) ∧
      lookup "pubcid.org" t = some (.arr ps) ∧
      ((∀ items, v = .arr items → ∀ x ∈ items, sourceKeyOf x ≠ "pubcid.org") → ps = []) ∧
      getTdidRepetition (.obj t) = .ok c ∧ (c = -2 ∨ c = -1 ∨ c = -5 ∨ c = 0) := by
  by_cases harr : ∃ items, v = .arr items
  · obtain ⟨items, rfl⟩ := harr
    have hrun := handleUserIds_wellShaped items
      (fun x hx => wellShaped_of_isAssertion x (h items rfl x hx))
    have hall := allArrays_fileItems items initialTable allArrays_initialTable
    have hsome := lookup_fileItems_isSome "pubcid.org" items initialTable rfl
    obtain ⟨w, hw⟩ := Option.isSome_iff_exists.mp hsome
    obtain ⟨ps, rfl⟩ := hall _ w hw
    obtain ⟨c, hc, hcode⟩ := getTdidRepetition_total_of_allArrays _ ps hall hw
    refine ⟨_, ps, c, hrun, hw, ?_, hc, hcode⟩
    intro hno
    rw [lookup_fileItems_of_no_source _ _ _ (hno items rfl)] at hw
    have : JSVal.arr [] = JSVal.arr ps := Option.some.inj hw
    exact (JSVal.arr.inj this).symm
  · have hrun := handleUserIds_eq_initial v (fun xs e => harr ⟨xs, e⟩)
    exact ⟨_, [], -2, hrun, rfl, fun _ => rfl, rfl, by simp⟩

/-- Witness for C7 (amended): an array with one assertion, of source 'adserver.org'. -/
theorem handleUserIds_baseline_populated_witness :
    ∃ (t : List (String × JSVal)) (ps : List JSVal) (c : Int),
      handleUserIds (.arr [.obj [("source", .str "adserver.org"),
        ("uids", .arr [.obj [("id", .str "A")]])]]) = .ok (.obj t) ∧
      lookup "pubcid.org" t = some (.arr ps) ∧
      ((∀ items, JSVal.arr [.obj [("source", .str "adserver.org"),
          ("uids", .arr [.obj [("id", .str "A")]])]] = .arr items →
        ∀ x ∈ items, sourceKeyOf x ≠ "pubcid.org") → ps = []) ∧
      getTdidRepetition (.obj t) = .ok c ∧ (c = -2 ∨ c = -1 ∨ c = -5 ∨ c = 0) :=
  handleUserIds_baseline_populated _ (by
    intro items e
    cases e
    decide)

/-! ## Validation of a bid request -/

/-- C9: for a bid whose `params` is present, `isBidRequestValid` returns the
boolean `true` when `params.placementId` is truthy or both `params.member` and
`params.invCode` are truthy, and the boolean `false` otherwise: a placementId
alone suffices, the member and invCode pair alone suffices, member alone or
invCode alone does not. -/
theorem isBidRequestValid_iff (bid params : JSVal)
    (hparams : getProp bid "params" = .ok params) (hpresent : params.isNullish = false) :
    isBidRequestValid bid
        = .ok (.bool ((fieldOf params "placementId").truthy ||
            ((fieldOf params "member").truthy && (fieldOf params "invCode").truthy))) ∧
      ((fieldOf params "placementId").truthy = true →
        isBidRequestValid bid = .ok (.bool true)) ∧
      ((fieldOf params "member").truthy = true → (fieldOf params "invCode").truthy = true →
        isBidRequestValid bid = .ok (.bool true)) ∧
      ((fieldOf params "placementId").truthy = false →
        (fieldOf params "invCode").truthy = false →
        isBidRequestValid bid = .ok (.bool false)) ∧
      ((fieldOf params "placementId").truthy = false →
        (fieldOf params "member").truthy = false →
        isBidRequestValid bid = .ok (.bool false)) := by
  have hp := getProp_of_not_nullish params "placementId" hpresent
  have hm := getProp_of_not_nullish params "member" hpresent
  have hi := getProp_of_not_nullish params "invCode" hpresent
  have main : isBidRequestValid bid
        = .ok (.bool ((fieldOf params "placementId").truthy ||
            ((fieldOf params "member").truthy && (fieldOf params "invCode").truthy))) := by
    simp only [isBidRequestValid, hparams, ok_bind, hp, hm, hi]
    cases h1 : (fieldOf params "placementId").truthy
    · cases h2 : (fieldOf params "member").truthy <;> simp [h1, h2]
    · simp [h1]
  refine ⟨main, ?_, ?_, ?_, ?_⟩
  · intro h1
    rw [main, h1]
    rfl
  · intro h2 h3
    rw [main, h2, h3]
    simp
  · intro h1 h3
    rw [main, h1, h3]
    simp
  · intro h1 h2
    rw [main, h1, h2]
    simp

/-- Witness for C9: a bid with a member and an invCode and no placementId. -/
theorem isBidRequestValid_iff_witness :
    isBidRequestValid (.obj [("params", .obj [("member", .str "m"), ("invCode", .str "c")])])
      = .ok (.bool true) :=
  (isBidRequestValid_iff
    (.obj [("params", .obj [("member", .str "m"), ("invCode", .str "c")])])
    (.obj [("member", .str "m"), ("invCode", .str "c")]) rfl rfl).1

/-! ## Interpretation of a server response -/

/-- C10: for every server response and every bid request, `interpretResponse`
returns a sequence of exactly one bid record whose `requestId` is the `bidId` of
the bid request, whose width and height are those of the page snapshot and whose
other fields are fixed placeholders; the result does not depend on the server
response. -/
theorem interpretResponse_fixed (env : PageSnapshot) (serverResponse bidRequest : JSVal)
    (hreq : bidRequest.isNullish = false) :
    interpretResponse env serverResponse bidRequest
        = .ok (.arr [.obj [
            ("requestId", fieldOf bidRequest "bidId"),
            ("cpm", .num 1),
            ("width", .num env.WIDTH),
            ("height", .num env.HEIGHT),
            ("creativeId", .str "CREATIVE_ID"),
            ("dealId", .str "DEAL_ID"),
            ("currency", .str "USD"),
            ("netRevenue", .bool true),
            ("ttl", .num 360),
            ("referrer", .str "REFERER"),
            ("ad", .str "CREATIVE_BODY")]]) ∧
      ∀ other : JSVal,
        interpretResponse env other bidRequest
          = interpretResponse env serverResponse bidRequest := by
  have hb := getProp_of_not_nullish bidRequest "bidId" hreq
  constructor
  · simp [interpretResponse, hb]
  · intro other
    rfl

/-- Witness for C10: the bid request `{bidId: 'b1'}` on a 1280 by 720 page. -/
theorem interpretResponse_fixed_witness :
    interpretResponse ⟨"example.com", "https://example.com/", 1280, 720⟩
        (.obj [("body", .obj [("cpm", .num 5)])]) (.obj [("bidId", .str "b1")])
        = .ok (.arr [.obj [
            ("requestId", .str "b1"),
            ("cpm", .num 1),
            ("width", .num 1280),
            ("height", .num 720),
            ("creativeId", .str "CREATIVE_ID"),
            ("dealId", .str "DEAL_ID"),
            ("currency", .str "USD"),
            ("netRevenue", .bool true),
            ("ttl", .num 360),
            ("referrer", .str "REFERER"),
            ("ad", .str "CREATIVE_BODY")]]) :=
  (interpretResponse_fixed ⟨"example.com", "https://example.com/", 1280, 720⟩
    (.obj [("body", .obj [("cpm", .num 5)])]) (.obj [("bidId", .str "b1")]) rfl).1

/-! ## Reading back JSON text -/

theorem digitChar_toNat (d : Nat) : (digitChar d).toNat = 48 + d % 10 := by
  unfold digitChar
  have h : d % 10 < 10 := Nat.mod_lt d (by decide)
  generalize d % 10 = m at h
  interval_cases m <;> rfl

theorem isDigit_digitChar (d : Nat) : isDigit (digitChar d) = true := by
  have h : d % 10 < 10 := Nat.mod_lt d (by decide)
  simp only [isDigit, digitChar_toNat, Bool.and_eq_true, decide_eq_true_eq]
  omega

theorem digitsValue_append_single (ds : List Char) (c : Char) :
    digitsValue (ds ++ [c]) = 10 * digitsValue ds + (c.toNat - 48) := by
  simp [digitsValue, List.foldl_append]

theorem decimalAux_value (fuel n : Nat) (h : n < fuel) :
    digitsValue (decimalAux fuel n) = n := by
  induction fuel generalizing n with
  | zero => omega
  | succ fuel ih =>
    unfold decimalAux
    by_cases hn : n < 10
    · simp [hn, digitsValue, digitChar_toNat]
    · rw [if_neg hn, digitsValue_append_single, ih (n / 10) (by omega), digitChar_toNat]
      omega

theorem decimalAux_all_digits (fuel n : Nat) :
    ∀ c ∈ decimalAux fuel n, isDigit c = true := by
  induction fuel generalizing n with
  | zero => simp [decimalAux]
  | succ fuel ih =>
    intro c hc
    unfold decimalAux at hc
    by_cases hn : n < 10
    · simp [hn] at hc
      subst hc
      exact isDigit_digitChar n
    · rw [if_neg hn, List.mem_append] at hc
      rcases hc with hc | hc
      · exact ih _ c hc
      · simp at hc
        subst hc
        exact isDigit_digitChar n

/-- The decimal digits of a number start with a digit, which is `0` only for the
number zero, written with one digit. -/
theorem decimalAux_head (fuel n : Nat) (h : n < fuel) :
    ∃ d ds, decimalAux fuel n = d :: ds ∧ (d = '0' → ds = []) := by
  induction fuel generalizing n with
  | zero => omega
  | succ fuel ih =>
    unfold decimalAux
    by_cases hn : n < 10
    · exact ⟨digitChar n, [], by simp [hn], fun _ => rfl⟩
    · obtain ⟨d, ds, hd, hz⟩ := ih (n / 10) (by omega)
      refine ⟨d, ds ++ [digitChar n], by simp [hn, hd], ?_⟩
      intro h0
      exfalso
      have hds := hz h0
      have hval := decimalAux_value fuel (n / 10) (by omega)
      rw [hd, hds, h0] at hval
      simp [digitsValue] at hval
      omega

theorem takeWhile_append_delimited (ds rest : List Char) (hds : ∀ c ∈ ds, isDigit c = true)
    (hrest : delimited rest = true) :
    (ds ++ rest).takeWhile isDigit = ds ∧ (ds ++ rest).dropWhile isDigit = rest := by
  induction ds with
  | nil =>
    cases rest with
    | nil => simp
    | cons c r =>
      have hc : isDigit c = false := by
        simp only [delimited, Bool.or_eq_true, decide_eq_true_eq] at hrest
        rcases hrest with (h | h) | h <;> subst h <;> rfl
      simp [List.takeWhile, List.dropWhile, hc]
  | cons d ds ih =>
    have hd := hds d (List.mem_cons_self _ _)
    have := ih (fun c hc => hds c (List.mem_cons_of_mem _ hc))
    simp [List.takeWhile, List.dropWhile, hd, this]

theorem head_delimited (rest : List Char) (hrest : delimited rest = true) :
    ¬ (rest.head? = some '.' ∨ rest.head? = some 'e' ∨ rest.head? = some 'E') := by
  cases rest with
  | nil => simp
  | cons c r =>
    simp only [delimited, Bool.or_eq_true, decide_eq_true_eq] at hrest
    rcases hrest with (h | h) | h <;> subst h <;> simp

theorem parseDigits_decimal (n : Nat) (rest : List Char) (hrest : delimited rest = true) :
    parseDigits (decimal n ++ rest) = some (n, rest) := by
  obtain ⟨d, ds, hd, hz⟩ := decimalAux_head (n + 1) n (Nat.lt_succ_self n)
  have hall := decimalAux_all_digits (n + 1) n
  have hval := decimalAux_value (n + 1) n (Nat.lt_succ_self n)
  obtain ⟨htake, hdrop⟩ := takeWhile_append_delimited (decimal n) rest hall hrest
  unfold parseDigits
  simp only [htake, hdrop]
  have hne : decimal n ≠ [] := by
    unfold decimal
    rw [hd]
    exact List.cons_ne_nil _ _
  have hlead : ¬ ((decimal n).head? = some '0' ∧ (decimal n).length ≠ 1) := by
    unfold decimal
    rw [hd]
    rintro ⟨h0, hlen⟩
    have : d = '0' := by simpa using h0
    simp [hz this] at hlen
  rw [if_neg hne, if_neg hlead, if_neg (head_delimited rest hrest)]
  unfold decimal
  rw [hval]

theorem decimal_head_isDigit (n : Nat) :
    ∃ d ds, decimal n = d :: ds ∧ isDigit d = true := by
  obtain ⟨d, ds, hd, _⟩ := decimalAux_head (n + 1) n (Nat.lt_succ_self n)
  refine ⟨d, ds, hd, ?_⟩
  apply decimalAux_all_digits (n + 1) n
  rw [hd]
  exact List.mem_cons_self _ _

theorem parseNumber_intText (n : Int) (rest : List Char) (hrest : delimited rest = true) :
    parseNumber (intText n ++ rest) = some (n, rest) := by
  cases n with
  | ofNat m =>
    obtain ⟨d, ds, hd, hdig⟩ := decimal_head_isDigit m
    have hp := parseDigits_decimal m rest hrest
    have hminus : d ≠ '-' := by
      rintro rfl
      simp [isDigit] at hdig
    simp only [intText]
    rw [hd] at hp ⊢
    simp only [List.cons_append] at hp ⊢
    simp [parseNumber, hminus, hp]
  | negSucc m =>
    have hp := parseDigits_decimal (m + 1) rest hrest
    simp only [intText, List.cons_append]
    simp [parseNumber, hp]
    rw [Int.negSucc_eq]
    omega

theorem hex4_control (c : Char) (h : c.toNat < 32) :
    hex4 '0' '0' (hexDigit (c.toNat / 16)) (hexDigit c.toNat) = some c := by
  have hc := Char.ofNat_toNat c
  generalize c.toNat = m at h hc
  subst hc
  interval_cases m <;> rfl

/-- Reading the text of one character of a string gives the character back. -/
theorem parseStringBody_escapeChar (fuel : Nat) (c : Char) (tail : List Char) :
    parseStringBody (fuel + 1) (escapeChar c ++ tail)
      = (parseStringBody fuel tail).map fun r => (c :: r.1, r.2) := by
  unfold escapeChar
  by_cases h1 : c = '\x22'
  · subst h1
    simp [parseStringBody, unescape]
  by_cases h2 : c = '\x5c'
  · subst h2
    simp [parseStringBody, unescape]
  by_cases h3 : c = '\x08'
  · subst h3
    simp [parseStringBody, unescape]
  by_cases h4 : c = '\x0c'
  · subst h4
    simp [parseStringBody, unescape]
  by_cases h5 : c = '\x0a'
  · subst h5
    simp [parseStringBody, unescape]
  by_cases h6 : c = '\x0d'
  · subst h6
    simp [parseStringBody, unescape]
  by_cases h7 : c = '\x09'
  · subst h7
    simp [parseStringBody, unescape]
  by_cases h8 : c.toNat < 32
  · simp [h1, h2, h3, h4, h5, h6, h7, h8, parseStringBody, hex4_control c h8]
  · simp [h1, h2, h3, h4, h5, h6, h7, h8, parseStringBody]

theorem length_quoteBody (cs : List Char) : cs.length + 1 ≤ (quoteBody cs).length := by
  induction cs with
  | nil => simp [quoteBody]
  | cons c rest ih =>
    have hpos : 1 ≤ (escapeChar c).length := by
      unfold escapeChar
      repeat' split
      all_goals simp
    simp only [quoteBody, List.length_append, List.length_cons]
    omega

theorem parseStringBody_quoteBody (cs rest : List Char) (fuel : Nat) (h : cs.length < fuel) :
    parseStringBody fuel (quoteBody cs ++ rest) = some (cs, rest) := by
  induction cs generalizing fuel with
  | nil =>
    cases fuel with
    | zero => simp at h
    | succ fuel => simp [quoteBody, parseStringBody]
  | cons c cs ih =>
    cases fuel with
    | zero => simp at h
    | succ fuel =>
      have hlt : cs.length < fuel := by simpa using h
      simp only [quoteBody, List.append_assoc]
      rw [parseStringBody_escapeChar, ih fuel hlt]
      rfl

/-- A character that starts a number is no white space and starts no other value. -/
theorem number_start (c : Char) (h : isDigit c = true ∨ c = '-') :
    isWs c = false ∧ c ≠ '\x22' ∧ c ≠ '[' ∧ c ≠ '\x7b' ∧ c ≠ 'n' ∧ c ≠ 't' ∧ c ≠ 'f' ∧
      c ≠ ']' := by
  rcases h with h | h
  · simp only [isDigit, Bool.and_eq_true, decide_eq_true_eq] at h
    refine ⟨?_, ?_, ?_, ?_, ?_, ?_, ?_, ?_⟩
    · simp only [isWs, Bool.or_eq_false_iff, decide_eq_false_iff_not]
      refine ⟨⟨⟨?_, ?_⟩, ?_⟩, ?_⟩ <;> rintro rfl <;> simp at h
    all_goals rintro rfl; simp at h
  · subst h
    decide

theorem intText_head (n : Int) :
    ∃ c r, intText n = c :: r ∧ (isDigit c = true ∨ c = '-') := by
  cases n with
  | ofNat m =>
    obtain ⟨d, ds, hd, hdig⟩ := decimal_head_isDigit m
    exact ⟨d, ds, hd, Or.inl hdig⟩
  | negSucc m => exact ⟨'-', _, rfl, Or.inr rfl⟩

/-- The text of a value starts with a character that is no white space and no
closing bracket. -/
theorem valueText_head (v : JSVal) :
    ∃ c r, JSON.valueText v = c :: r ∧ isWs c = false ∧ c ≠ ']' := by
  cases v with
  | undefined => exact ⟨'n', _, by simp only [JSON.valueText]; rfl, by decide, by decide⟩
  | null => exact ⟨'n', _, by simp only [JSON.valueText]; rfl, by decide, by decide⟩
  | bool b =>
    cases b
    · exact ⟨'f', _, by simp only [JSON.valueText]; rfl, by decide, by decide⟩
    · exact ⟨'t', _, by simp only [JSON.valueText]; rfl, by decide, by decide⟩
  | num n =>
    obtain ⟨c, r, hc, hstart⟩ := intText_head n
    have hs := number_start c hstart
    exact ⟨c, r, by simp [JSON.valueText, hc], hs.1, hs.2.2.2.2.2.2.2⟩
  | str s => exact ⟨'\x22', _, by simp only [JSON.valueText, quoteJSONString]; rfl, by decide, by decide⟩
  | arr xs => exact ⟨'[', _, by simp only [JSON.valueText]; rfl, by decide, by decide⟩
  | obj ps => exact ⟨'\x7b', _, by simp only [JSON.valueText]; rfl, by decide, by decide⟩

theorem length_valueText_pos (v : JSVal) : 1 ≤ (JSON.valueText v).length := by
  obtain ⟨c, r, hc, _⟩ := valueText_head v
  simp [hc]

theorem delimited_elemsText (xs : List JSVal) (rest : List Char) :
    delimited (JSON.elemsText false xs ++ rest) = true := by
  cases xs <;> simp [JSON.elemsText, delimited]

theorem delimited_membersText (ps : List (String × JSVal)) (rest : List Char) :
    delimited (JSON.membersText false ps ++ rest) = true := by
  induction ps with
  | nil => simp [JSON.membersText, delimited]
  | cons p ps ih =>
    obtain ⟨k, v⟩ := p
    by_cases hv : v.isUndefined = true
    · simpa [JSON.membersText, hv] using ih
    · simp [JSON.membersText, hv, delimited]

theorem skipWs_cons (c : Char) (r : List Char) (h : isWs c = false) :
    skipWs (c :: r) = c :: r := by
  simp [skipWs, h]

theorem length_elemsText_pos (first : Bool) (xs : List JSVal) :
    1 ≤ (JSON.elemsText first xs).length := by
  cases xs with
  | nil => simp [JSON.elemsText]
  | cons x xs =>
    have := length_valueText_pos x
    simp only [JSON.elemsText, List.length_append]
    omega

theorem length_membersText_pos (first : Bool) (ps : List (String × JSVal)) :
    1 ≤ (JSON.membersText first ps).length := by
  induction ps with
  | nil => simp [JSON.membersText]
  | cons p ps ih =>
    obtain ⟨k, v⟩ := p
    by_cases hv : v.isUndefined = true
    · simpa [JSON.membersText, hv] using ih
    · simp only [JSON.membersText, hv, Bool.false_eq_true, if_false, List.length_append,
        List.length_cons]
      omega

mutual
/-- Reading the text of a value gives the value back, up to `JSON.reread`. -/
theorem parseValue_valueText (v : JSVal) (fuel : Nat) (rest : List Char)
    (hfuel : (JSON.valueText v).length ≤ fuel) (hrest : delimited rest = true) :
    JSON.parseValue fuel (JSON.valueText v ++ rest) = some (JSON.reread v, rest) := by
  cases fuel with
  | zero =>
    have := length_valueText_pos v
    omega
  | succ f =>
    cases v with
    | undefined => simp [JSON.valueText, JSON.parseValue, skipWs, isWs, expectLit, JSON.reread]
    | null => simp [JSON.valueText, JSON.parseValue, skipWs, isWs, expectLit, JSON.reread]
    | bool b =>
      cases b <;>
        simp [JSON.valueText, JSON.parseValue, skipWs, isWs, expectLit, JSON.reread]
    | num n =>
      obtain ⟨c, r, hc, hstart⟩ := intText_head n
      obtain ⟨hws, h1, h2, h3, h4, h5, h6, _⟩ := number_start c hstart
      have hp := parseNumber_intText n rest hrest
      rw [hc] at hp
      simp only [JSON.valueText, hc, List.cons_append] at hp ⊢
      simp [JSON.parseValue, skipWs, hws, h1, h2, h3, h4, h5, h6, hp, JSON.reread]
    | str s =>
      have hlen := length_quoteBody s.data
      simp only [JSON.valueText, quoteJSONString, List.length_cons] at hfuel
      have hb := parseStringBody_quoteBody s.data rest f (by omega)
      simp [JSON.valueText, quoteJSONString, JSON.parseValue, skipWs, isWs, hb, JSON.reread]
    | arr xs =>
      simp only [JSON.valueText, List.length_cons] at hfuel
      have he := parseElems_elemsText xs true f rest (by omega)
      simp [JSON.valueText, JSON.parseValue, skipWs, isWs, he, JSON.reread]
    | obj ps =>
      simp only [JSON.valueText, List.length_cons] at hfuel
      have hm := parseMembers_membersText ps true [] f rest (by omega)
      simp [JSON.valueText, JSON.parseValue, skipWs, isWs, hm, JSON.reread]
/-- Reading the text of the elements of an array gives them back. -/
theorem parseElems_elemsText (xs : List JSVal) (first : Bool) (fuel : Nat) (rest : List Char)
    (hfuel : (JSON.elemsText first xs).length ≤ fuel) :
    JSON.parseElems fuel first (JSON.elemsText first xs ++ rest)
      = some (JSON.rereadElems xs, rest) := by
  cases fuel with
  | zero =>
    have := length_elemsText_pos first xs
    omega
  | succ f =>
    cases xs with
    | nil => simp [JSON.elemsText, JSON.parseElems, skipWs, isWs, JSON.rereadElems]
    | cons x xs =>
      obtain ⟨c, r, hc, hws, hbr⟩ := valueText_head x
      have hx1 := length_valueText_pos x
      have hx2 := length_elemsText_pos false xs
      have hlen : (JSON.valueText x).length + (JSON.elemsText false xs).length ≤ f + 1 := by
        cases first <;>
          simp only [JSON.elemsText, List.length_append, List.length_cons, List.length_nil,
            if_true, if_false, Bool.false_eq_true] at hfuel <;> omega
      have hv := parseValue_valueText x f (JSON.elemsText false xs ++ rest) (by omega)
        (delimited_elemsText xs rest)
      have he := parseElems_elemsText xs false f rest (by omega)
      cases first
      · simp only [JSON.elemsText, Bool.false_eq_true, if_false, List.cons_append,
          List.nil_append, List.append_assoc, JSON.parseElems]
        rw [skipWs_cons _ _ (by decide)]
        simp [hv, he, JSON.rereadElems]
      · simp only [JSON.elemsText, if_true, List.nil_append, List.append_assoc,
          JSON.parseElems]
        rw [hc] at hv ⊢
        simp only [List.cons_append] at hv ⊢
        rw [skipWs_cons _ _ hws]
        simp [hbr, hv, he, JSON.rereadElems]
/-- Reading the text of the members of an object defines them in turn. -/
theorem parseMembers_membersText (ps : List (String × JSVal)) (first : Bool)
    (acc : List (String × JSVal)) (fuel : Nat) (rest : List Char)
    (hfuel : (JSON.membersText first ps).length ≤ fuel) :
    JSON.parseMembers fuel first acc (JSON.membersText first ps ++ rest)
      = some (JSON.rereadMembers acc ps, rest) := by
  cases fuel with
  | zero =>
    have := length_membersText_pos first ps
    omega
  | succ f =>
    cases ps with
    | nil => simp [JSON.membersText, JSON.parseMembers, skipWs, isWs, JSON.rereadMembers]
    | cons p ps =>
      obtain ⟨k, v⟩ := p
      by_cases hund : v.isUndefined = true
      · have hm := parseMembers_membersText ps first acc (f + 1) rest
          (by simpa [JSON.membersText, hund] using hfuel)
        simpa [JSON.membersText, JSON.rereadMembers, hund] using hm
      · have hk := length_quoteBody k.data
        have hv1 := length_valueText_pos v
        have hm1 := length_membersText_pos false ps
        have hlen : (quoteBody k.data).length + (JSON.valueText v).length
            + (JSON.membersText false ps).length + 1 ≤ f := by
          cases first <;>
            simp only [JSON.membersText, hund, quoteJSONString, List.length_append,
              List.length_cons, List.length_nil, if_true, if_false,
              Bool.false_eq_true] at hfuel <;> omega
        have hkey := parseStringBody_quoteBody k.data
          (':' :: (JSON.valueText v ++ (JSON.membersText false ps ++ rest))) f (by omega)
        have hv := parseValue_valueText v f (JSON.membersText false ps ++ rest) (by omega)
          (delimited_membersText ps rest)
        have hm := parseMembers_membersText ps false (define acc k (JSON.reread v)) f rest
          (by omega)
        cases first
        · simp only [JSON.membersText, hund, Bool.false_eq_true, if_false, List.cons_append,
            List.nil_append, List.append_assoc, JSON.parseMembers, quoteJSONString]
          rw [skipWs_cons _ _ (by decide)]
          simp [skipWs, isWs, hkey, hv, hm, JSON.rereadMembers, hund]
        · simp only [JSON.membersText, hund, Bool.false_eq_true, if_false, if_true,
            List.cons_append, List.nil_append, List.append_assoc, JSON.parseMembers,
            quoteJSONString]
          rw [skipWs_cons _ _ (by decide)]
          simp [skipWs, isWs, hkey, hv, hm, JSON.rereadMembers, hund]
end

/-- `JSON.parse` reads the text that `JSON.stringify` writes for a value. -/
theorem parse_stringify (v : JSVal) (h : v.isUndefined = false) :
    ∃ text, JSON.stringify v = .str text ∧ JSON.parse text = some (JSON.reread v) := by
  refine ⟨String.mk (JSON.valueText v), by simp [JSON.stringify, h], ?_⟩
  have hp := parseValue_valueText v (JSON.valueText v).length [] (Nat.le_refl _) rfl
  rw [List.append_nil] at hp
  simp [JSON.parse, String.length, hp, skipWs]

theorem lookup_define_same (k : String) (v : JSVal) (t : List (String × JSVal)) :
    lookup k (define t k v) = some v := by
  unfold define
  by_cases hown : hasOwn k t = true
  · simp [hown, lookup_replaceOwn_same k v t hown]
  · have hnone : lookup k t = none := by simpa [hasOwn] using hown
    simp [hown, lookup_append_single, hnone]

theorem lookup_define_other (k k' : String) (v : JSVal) (t : List (String × JSVal))
    (hne : k' ≠ k) : lookup k' (define t k v) = lookup k' t := by
  unfold define
  have hne' : ¬ k = k' := fun h => hne h.symm
  by_cases hown : hasOwn k t = true
  · simp [hown, lookup_replaceOwn_other k k' v t hne]
  · simp only [hown, if_false, lookup_append_single, hne', Bool.false_eq_true]
    cases lookup k' t <;> rfl

theorem lookup_rereadMembers_of_no_key (k : String) (ps acc : List (String × JSVal))
    (h : ∀ p ∈ ps, p.1 ≠ k) :
    lookup k (JSON.rereadMembers acc ps) = lookup k acc := by
  induction ps generalizing acc with
  | nil => rfl
  | cons p ps ih =>
    obtain ⟨k', v⟩ := p
    have hk : k ≠ k' := fun e => h (k', v) (List.mem_cons_self _ _) e.symm
    have hps : ∀ p ∈ ps, p.1 ≠ k := fun p hp => h p (List.mem_cons_of_mem _ hp)
    by_cases hund : v.isUndefined = true
    · simp [JSON.rereadMembers, hund, ih acc hps]
    · simp [JSON.rereadMembers, hund, ih _ hps, lookup_define_other k' k _ acc hk]

theorem rereadMembers_append (pre ps acc : List (String × JSVal)) :
    JSON.rereadMembers acc (pre ++ ps) = JSON.rereadMembers (JSON.rereadMembers acc pre) ps := by
  induction pre generalizing acc with
  | nil => rfl
  | cons p pre ih =>
    obtain ⟨k, v⟩ := p
    by_cases hund : v.isUndefined = true
    · simp [JSON.rereadMembers, hund, ih]
    · simp [JSON.rereadMembers, hund, ih]

theorem reread_primitive (v : JSVal) (hp : isPrimitive v = true) (hu : v.isUndefined = false) :
    JSON.reread v = v := by
  cases v <;> simp_all [isPrimitive, JSVal.isUndefined, JSON.reread]

/-- A primitive property whose key occurs once among the properties of an object
is read back unchanged from the text of the object. -/
theorem fieldOf_reread_primitive (k : String) (v : JSVal) (pre post : List (String × JSVal))
    (hpre : ∀ p ∈ pre, p.1 ≠ k) (hpost : ∀ p ∈ post, p.1 ≠ k) (hp : isPrimitive v = true) :
    fieldOf (JSON.reread (.obj (pre ++ (k, v) :: post))) k = v := by
  have hacc : lookup k (JSON.rereadMembers [] pre) = none := by
    rw [lookup_rereadMembers_of_no_key k pre [] hpre]
    rfl
  simp only [JSON.reread, fieldOf, getProp, rereadMembers_append]
  by_cases hund : v.isUndefined = true
  · have hv : v = .undefined := by
      cases v <;> simp_all [JSVal.isUndefined]
    subst hv
    simp [JSON.rereadMembers, JSVal.isUndefined,
      lookup_rereadMembers_of_no_key k post _ hpost, hacc]
  · have hu : v.isUndefined = false := by simpa using hund
    simp [JSON.rereadMembers, hund, lookup_rereadMembers_of_no_key k post _ hpost,
      lookup_define_same, reread_primitive v hp hu]

/-! ## The request builder -/

/-- On an input it can process, `handleUserIds` returns a table of arrays that has
the baseline key. -/
theorem handleUserIds_table (v : JSVal)
    (h : ∀ items, v = .arr items → ∀ x ∈ items, wellShaped x = true) :
    ∃ (t : List (String × JSVal)) (ps : List JSVal),
      handleUserIds v = .ok (.obj t) ∧ AllArrays t ∧ lookup "pubcid.org" t = some (.arr ps) := by
  by_cases harr : ∃ items, v = .arr items
  · obtain ⟨items, rfl⟩ := harr
    have hall := allArrays_fileItems items initialTable allArrays_initialTable
    have hsome := lookup_fileItems_isSome "pubcid.org" items initialTable rfl
    obtain ⟨w, hw⟩ := Option.isSome_iff_exists.mp hsome
    obtain ⟨ps, rfl⟩ := hall _ w hw
    exact ⟨_, ps, handleUserIds_wellShaped items (h items rfl), hall, hw⟩
  · exact ⟨_, [], handleUserIds_eq_initial v (fun xs e => harr ⟨xs, e⟩),
      allArrays_initialTable, rfl⟩

theorem mapElems_forall₂ (f : JSVal → JSResult JSVal) (R : JSVal → JSVal → Prop)
    (xs : List JSVal) (h : ∀ x ∈ xs, ∃ y, f x = .ok y ∧ R x y) :
    ∃ ys, mapElems f xs = .ok ys ∧ List.Forall₂ R xs ys := by
  induction xs with
  | nil => exact ⟨[], rfl, List.Forall₂.nil⟩
  | cons x xs ih =>
    obtain ⟨y, hy, hR⟩ := h x (List.mem_cons_self _ _)
    obtain ⟨ys, hys, hall⟩ := ih (fun z hz => h z (List.mem_cons_of_mem _ hz))
    exact ⟨y :: ys, by simp [mapElems, hy, hys], List.Forall₂.cons hR hall⟩

/-- The descriptor that the callback of `buildRequests` composes for a bid request
it can process. -/
theorem buildRequest_buildable (env : PageSnapshot) (bid : JSVal) (h : buildable bid = true) :
    ∃ (data : String) (o : List (String × JSVal)),
      buildRequest env bid
        = .ok (.obj [("method", .str "POST"), ("url", .str ENDPOINT_URL), ("data", .str data)]) ∧
      JSON.parse data = some (.obj o) ∧
      fieldOf (.obj o) "bidId" = fieldOf bid "bidId" := by
  simp only [buildable, Bool.and_eq_true, Bool.not_eq_true'] at h
  obtain ⟨⟨⟨hn, hm⟩, hids⟩, hprim⟩ := h
  have hshape : ∀ items, fieldOf bid "userIdAsEid" = .arr items →
      ∀ x ∈ items, wellShaped x = true := by
    intro items e
    rw [e] at hids
    simpa using hids
  obtain ⟨t, ps, hrun, hall, hp⟩ := handleUserIds_table _ hshape
  obtain ⟨c, hc, _⟩ := getTdidRepetition_total_of_allArrays t ps hall hp
  obtain ⟨text, htext, hparse⟩ := parse_stringify (.obj [
    ("ssspUid", fieldOf bid "bidderRequestId"),
    ("adUnitCode", fieldOf bid "adUnitCode"),
    ("auctionId", fieldOf bid "auctionId"),
    ("bidId", fieldOf bid "bidId"),
    ("mediaType", .obj [("banner", fieldOf (fieldOf bid "mediaType") "banner")]),
    ("site", .obj [
      ("page", .str env.PAGE),
      ("domain", .str env.DOMAIN),
      ("publisher", .obj [("domain", .str env.DOMAIN)])]),
    ("device", .obj [("w", .num env.WIDTH), ("h", .num env.HEIGHT)]),
    ("pubProvidedIds", .obj t),
    ("tdidRepetition", .num c)]) rfl
  refine ⟨text, _, ?_, hparse, ?_⟩
  · simp only [buildRequest, getProp_of_not_nullish bid _ hn,
      getProp_of_not_nullish _ "banner" hm, hrun, hc, ok_bind, htext, pure_eq_ok]
  · exact fieldOf_reread_primitive "bidId" (fieldOf bid "bidId")
      [("ssspUid", fieldOf bid "bidderRequestId"), ("adUnitCode", fieldOf bid "adUnitCode"),
        ("auctionId", fieldOf bid "auctionId")] _ (by simp) (by simp) hprim

set_option maxRecDepth 100000 in
/-- Two evaluations of the request builder: on a batch of one record that fails
`isBidRequestValid` the callback of `buildRequests` still composes a descriptor
(and the call returns `undefined`); on a batch of one record that passes
`isBidRequestValid` but has no `mediaType`, `buildRequests` raises a `TypeError`. -/
theorem buildRequests_counterexample :
    isBidRequestValid (.obj [("bidId", .str "b1"), ("params", .obj []),
        ("mediaType", .obj [("banner", .obj [])])]) = .ok (.bool false) ∧
    buildRequestsMapped ⟨"example.com", "https://example.com/", 1280, 720⟩
        (.arr [.obj [("bidId", .str "b1"), ("params", .obj []),
          ("mediaType", .obj [("banner", .obj [])])]])
      = .ok (.arr [.obj [("method", .str "POST"),
          ("url", .str "http://www.superssp.com:1234/api/v1"),
          ("data", .str ("\x7b\"bidId\":\"b1\",\"mediaType\":\x7b\"banner\":\x7b\x7d\x7d," ++
            "\"site\":\x7b\"page\":\"https://example.com/\",\"domain\":\"example.com\"," ++
            "\"publisher\":\x7b\"domain\":\"example.com\"\x7d\x7d," ++
            "\"device\":\x7b\"w\":1280,\"h\":720\x7d," ++
            "\"pubProvidedIds\":\x7b\"pubcid.org\":[]\x7d,\"tdidRepetition\":-2\x7d"))]]) ∧
    buildRequests ⟨"example.com", "https://example.com/", 1280, 720⟩
        (.arr [.obj [("bidId", .str "b1"), ("params", .obj []),
          ("mediaType", .obj [("banner", .obj [])])]])
      = .ok .undefined ∧
    isBidRequestValid (.obj [("bidId", .str "b2"), ("params", .obj [("placementId", .num 1)])])
      = .ok (.bool true) ∧
    buildRequests ⟨"example.com", "https://example.com/", 1280, 720⟩
        (.arr [.obj [("bidId", .str "b2"), ("params", .obj [("placementId", .num 1)])]])
      = .error .typeError := by
  refine ⟨rfl, ?_, ?_, rfl, rfl⟩
  · rfl
  · rfl

/-- The descriptors that the `map` in `buildRequests` composes: for every batch of
bid requests that the callback can process, exactly one descriptor per record, in
input order and whether or not the record passes `isBidRequestValid`; each
descriptor has the method 'POST', the fixed endpoint URL and a data string that
parses as JSON to an object whose `bidId` is the `bidId` of its record. -/
theorem buildRequests_one_per_record (env : PageSnapshot) (bids : List JSVal)
    (h : ∀ bid ∈ bids, buildable bid = true) :
    ∃ ds : List JSVal,
      buildRequestsMapped env (.arr bids) = .ok (.arr ds) ∧
      ds.length = bids.length ∧
      List.Forall₂ (fun bid d =>
        ∃ (data : String) (o : List (String × JSVal)),
          d = .obj [("method", .str "POST"),
            ("url", .str "http://www.superssp.com:1234/api/v1"), ("data", .str data)] ∧
          JSON.parse data = some (.obj o) ∧
          fieldOf (.obj o) "bidId" = fieldOf bid "bidId") bids ds := by
  obtain ⟨ds, hds, hall⟩ := mapElems_forall₂ (buildRequest env)
    (fun bid d =>
      ∃ (data : String) (o : List (String × JSVal)),
        d = .obj [("method", .str "POST"),
          ("url", .str "http://www.superssp.com:1234/api/v1"), ("data", .str data)] ∧
        JSON.parse data = some (.obj o) ∧
        fieldOf (.obj o) "bidId" = fieldOf bid "bidId") bids (by
      intro bid hbid
      obtain ⟨data, o, hrun, hparse, hid⟩ := buildRequest_buildable env bid (h bid hbid)
      exact ⟨_, hrun, data, o, rfl, hparse, hid⟩)
  refine ⟨ds, ?_, hall.length_eq.symm, hall⟩
  simp [buildRequestsMapped, arrayMap, hds]

/-- The composed descriptors of a batch of two records, the first of which fails
`isBidRequestValid`. -/
theorem buildRequests_one_per_record_witness :
    ∃ ds : List JSVal,
      buildRequestsMapped ⟨"example.com", "https://example.com/", 1280, 720⟩
        (.arr [
          .obj [("bidId", .str "b1"), ("params", .obj []),
            ("mediaType", .obj [("banner", .obj [])])],
          .obj [("bidId", .str "b2"), ("params", .obj [("placementId", .num 1)]),
            ("mediaType", .obj [("banner", .obj [])]),
            ("userIdAsEid", .arr [.obj [("source", .str "adserver.org"),
              ("uids", .arr [.obj [("id", .str "A")]])]])]]) = .ok (.arr ds) ∧
      ds.length = 2 ∧
      List.Forall₂ (fun bid d =>
        ∃ (data : String) (o : List (String × JSVal)),
          d = .obj [("method", .str "POST"),
            ("url", .str "http://www.superssp.com:1234/api/v1"), ("data", .str data)] ∧
          JSON.parse data = some (.obj o) ∧
          fieldOf (.obj o) "bidId" = fieldOf bid "bidId")
        [.obj [("bidId", .str "b1"), ("params", .obj []),
            ("mediaType", .obj [("banner", .obj [])])],
          .obj [("bidId", .str "b2"), ("params", .obj [("placementId", .num 1)]),
            ("mediaType", .obj [("banner", .obj [])]),
            ("userIdAsEid", .arr [.obj [("source", .str "adserver.org"),
              ("uids", .arr [.obj [("id", .str "A")]])]])]] ds :=
  buildRequests_one_per_record ⟨"example.com", "https://example.com/", 1280, 720⟩ _
    (by decide)

/-- C8 (what the code does): `buildRequests` has no `return`. For every batch of
bid requests that the callback can process, valid or not, the call returns
`undefined`, and the descriptors that the `map` composed, one per record of the
batch, are discarded; whenever `buildRequests` returns, it returns `undefined`. -/
theorem buildRequests_returns_undefined (env : PageSnapshot) (bids : List JSVal)
    (h : ∀ bid ∈ bids, buildable bid = true) :
    buildRequests env (.arr bids) = .ok .undefined ∧
    (∃ ds : List JSVal,
      buildRequestsMapped env (.arr bids) = .ok (.arr ds) ∧ ds.length = bids.length) ∧
    ∀ v result : JSVal, buildRequests env v = .ok result → result = .undefined := by
  obtain ⟨ds, hds, hall⟩ := mapElems_forall₂ (buildRequest env) (fun _ _ => True) bids (by
    intro bid hbid
    obtain ⟨data, o, hrun, _, _⟩ := buildRequest_buildable env bid (h bid hbid)
    exact ⟨_, hrun, trivial⟩)
  have hmapped : buildRequestsMapped env (.arr bids) = .ok (.arr ds) := by
    simp [buildRequestsMapped, arrayMap, hds]
  refine ⟨?_, ⟨ds, hmapped, hall.length_eq.symm⟩, ?_⟩
  · simp [buildRequests, hmapped]
  · intro v result hv
    cases hm : buildRequestsMapped env v with
    | error e => simp [buildRequests, hm] at hv
    | ok mapped =>
      simp only [buildRequests, hm, ok_bind, pure_eq_ok] at hv
      exact (Except.ok.inj hv).symm

/-- Witness for C8: a batch of one record that passes `isBidRequestValid`; the call
returns `undefined`. -/
theorem buildRequests_returns_undefined_witness :
    isBidRequestValid (.obj [("bidId", .str "b1"), ("params", .obj [("placementId", .num 1)]),
        ("mediaType", .obj [("banner", .obj [])])]) = .ok (.bool true) ∧
    buildRequests ⟨"example.com", "https://example.com/", 1280, 720⟩
        (.arr [.obj [("bidId", .str "b1"), ("params", .obj [("placementId", .num 1)]),
          ("mediaType", .obj [("banner", .obj [])])]])
      = .ok .undefined :=
  ⟨rfl, (buildRequests_returns_undefined ⟨"example.com", "https://example.com/", 1280, 720⟩
    [.obj [("bidId", .str "b1"), ("params", .obj [("placementId", .num 1)]),
      ("mediaType", .obj [("banner", .obj [])])]] (by decide)).1⟩

/-! ## The sync registrar -/

theorem isNullish_of_fieldOf_truthy (v : JSVal) (k : String) (h : (fieldOf v k).truthy = true) :
    v.isNullish = false := by
  cases hn : v.isNullish
  · rfl
  · rw [fieldOf_of_nullish v k hn] at h
    cases h

theorem isNullish_of_fieldOf_not_nullish (v : JSVal) (k : String)
    (h : (fieldOf v k).isNullish = false) : v.isNullish = false := by
  cases hn : v.isNullish
  · rfl
  · rw [fieldOf_of_nullish v k hn] at h
    cases h

/-- The consent fragment of a consent record that is not `undefined` or `null`. -/
theorem gdpr_params_of_not_nullish (gdprConsent : JSVal) (h : gdprConsent.isNullish = false) :
    gdpr_params gdprConsent
      = .ok (match fieldOf gdprConsent "gdprApplies" with
        | .bool b => "gdpr=" ++ (numberOfBool b).toStr ++ "&gdpr_consent="
            ++ (fieldOf gdprConsent "consentString").toStr
        | _ => "gdpr_consent=" ++ (fieldOf gdprConsent "consentString").toStr) := by
  have ha := getProp_of_not_nullish gdprConsent "gdprApplies" h
  have hc := getProp_of_not_nullish gdprConsent "consentString" h
  simp only [gdpr_params, ha, hc, ok_bind]
  cases fieldOf gdprConsent "gdprApplies" <;> rfl

theorem gdpr_params_of_nullish (gdprConsent : JSVal) (h : gdprConsent.isNullish = true) :
    gdpr_params gdprConsent = .error .typeError := by
  cases gdprConsent <;> simp_all [JSVal.isNullish, gdpr_params, getProp]

/-- C14: the consent fragment that `getUserSyncs` computes is
`gdpr=1&gdpr_consent=<consentString>` when `gdprApplies` is the boolean `true`,
`gdpr=0&gdpr_consent=<consentString>` when it is the boolean `false`, and exactly
`gdpr_consent=<consentString>` when `gdprApplies` is not a boolean. -/
theorem gdpr_params_cases (gdprConsent : JSVal) (h : gdprConsent.isNullish = false) :
    (fieldOf gdprConsent "gdprApplies" = .bool true →
      gdpr_params gdprConsent
        = .ok ("gdpr=1&gdpr_consent=" ++ (fieldOf gdprConsent "consentString").toStr)) ∧
    (fieldOf gdprConsent "gdprApplies" = .bool false →
      gdpr_params gdprConsent
        = .ok ("gdpr=0&gdpr_consent=" ++ (fieldOf gdprConsent "consentString").toStr)) ∧
    ((∀ b, fieldOf gdprConsent "gdprApplies" ≠ .bool b) →
      gdpr_params gdprConsent
        = .ok ("gdpr_consent=" ++ (fieldOf gdprConsent "consentString").toStr)) ∧
    (∀ cs : String, (JSVal.str cs).toStr = cs) := by
  have hrun := gdpr_params_of_not_nullish gdprConsent h
  refine ⟨?_, ?_, ?_, fun _ => rfl⟩
  · intro hb
    rw [hrun, hb]
    rfl
  · intro hb
    rw [hrun, hb]
    rfl
  · intro hb
    rw [hrun]
    cases hg : fieldOf gdprConsent "gdprApplies" with
    | bool b => exact absurd hg (hb b)
    | _ => rfl

/-- Witness for C14: `gdprApplies` that is `true`, `false`, absent, the number 1 and
the string 'true', each with the consent string 'CS'. -/
theorem gdpr_params_cases_witness :
    gdpr_params (.obj [("gdprApplies", .bool true), ("consentString", .str "CS")])
      = .ok "gdpr=1&gdpr_consent=CS" ∧
    gdpr_params (.obj [("gdprApplies", .bool false), ("consentString", .str "CS")])
      = .ok "gdpr=0&gdpr_consent=CS" ∧
    gdpr_params (.obj [("consentString", .str "CS")]) = .ok "gdpr_consent=CS" ∧
    gdpr_params (.obj [("gdprApplies", .num 1), ("consentString", .str "CS")])
      = .ok "gdpr_consent=CS" ∧
    gdpr_params (.obj [("gdprApplies", .str "true"), ("consentString", .str "CS")])
      = .ok "gdpr_consent=CS" :=
  ⟨(gdpr_params_cases (.obj [("gdprApplies", .bool true), ("consentString", .str "CS")])
      rfl).1 rfl,
   (gdpr_params_cases (.obj [("gdprApplies", .bool false), ("consentString", .str "CS")])
      rfl).2.1 rfl,
   (gdpr_params_cases (.obj [("consentString", .str "CS")]) rfl).2.2.1
      (by simp [fieldOf, getProp, lookup]),
   (gdpr_params_cases (.obj [("gdprApplies", .num 1), ("consentString", .str "CS")])
      rfl).2.2.1 (by simp [fieldOf, getProp, lookup]),
   (gdpr_params_cases (.obj [("gdprApplies", .str "true"), ("consentString", .str "CS")])
      rfl).2.2.1 (by simp [fieldOf, getProp, lookup])⟩

theorem containsText_append_left (pre sub post : String) :
    containsText (pre ++ (sub ++ post)) sub :=
  ⟨pre, post, by simp [String.append_assoc]⟩

/-- The result of `getUserSyncs` in terms of the consent fragment, for sync
options that are not `undefined` or `null`. -/
theorem getUserSyncs_of_fragment (syncOptions gdprConsent usp : JSVal)
    (serverResponses : List JSVal) (fragment : String)
    (hg : gdpr_params gdprConsent = .ok fragment) (hso : syncOptions.isNullish = false) :
    getUserSyncs syncOptions serverResponses gdprConsent usp
      = if (fieldOf syncOptions "pixelEnabled").truthy then
          match serverResponses with
          | [] => .ok (.arr (if (fieldOf syncOptions "iframeEnabled").truthy
              then [syncDescriptor "iframe" (IFRAME_SYNC_URL ++ fragment)] else []))
          | first :: _ =>
            getProp first "body" >>= fun body =>
            getProp body "userSync" >>= fun userSync =>
            getProp userSync "url" >>= fun url =>
            .ok (.arr ((if (fieldOf syncOptions "iframeEnabled").truthy
              then [syncDescriptor "iframe" (IFRAME_SYNC_URL ++ fragment)] else [])
              ++ [syncDescriptor "image" (url.toStr ++ fragment)]))
        else .ok (.arr (if (fieldOf syncOptions "iframeEnabled").truthy
          then [syncDescriptor "iframe" (IFRAME_SYNC_URL ++ fragment)] else [])) := by
  have hi := getProp_of_not_nullish syncOptions "iframeEnabled" hso
  have hp := getProp_of_not_nullish syncOptions "pixelEnabled" hso
  simp only [getUserSyncs, hg, hi, hp, ok_bind]
  cases serverResponses <;> rfl

/-- C11: with `gdprApplies` a boolean `b`, a consent string, iframe and pixel syncs
both enabled and a non-empty list of server responses whose first response body
carries a sync URL, `getUserSyncs` returns exactly two descriptors, an 'iframe'
one followed by an 'image' one, and both URLs contain `gdpr=1` when `b` is true
(`gdpr=0` when `b` is false). -/
theorem getUserSyncs_two_descriptors (syncOptions gdprConsent usp first : JSVal)
    (rest : List JSVal) (b : Bool) (consentString url : String)
    (hiframe : (fieldOf syncOptions "iframeEnabled").truthy = true)
    (hpixel : (fieldOf syncOptions "pixelEnabled").truthy = true)
    (happlies : fieldOf gdprConsent "gdprApplies" = .bool b)
    (hconsent : fieldOf gdprConsent "consentString" = .str consentString)
    (hurl : fieldOf (fieldOf (fieldOf first "body") "userSync") "url" = .str url) :
    ∃ u₁ u₂ : String,
      getUserSyncs syncOptions (first :: rest) gdprConsent usp
        = .ok (.arr [.obj [("type", .str "iframe"), ("url", .str u₁)],
            .obj [("type", .str "image"), ("url", .str u₂)]]) ∧
      containsText u₁ (if b then "gdpr=1" else "gdpr=0") ∧
      containsText u₂ (if b then "gdpr=1" else "gdpr=0") := by
  have hso := isNullish_of_fieldOf_truthy syncOptions "iframeEnabled" hiframe
  have hgc : gdprConsent.isNullish = false :=
    isNullish_of_fieldOf_not_nullish gdprConsent "gdprApplies" (by rw [happlies]; rfl)
  have hus : (fieldOf (fieldOf first "body") "userSync").isNullish = false :=
    isNullish_of_fieldOf_not_nullish _ "url" (by rw [hurl]; rfl)
  have hbody := isNullish_of_fieldOf_not_nullish _ "userSync" hus
  have hfirst := isNullish_of_fieldOf_not_nullish _ "body" hbody
  have hfrag := gdpr_params_of_not_nullish gdprConsent hgc
  rw [happlies, hconsent] at hfrag
  have hrun := getUserSyncs_of_fragment syncOptions gdprConsent usp (first :: rest) _ hfrag hso
  simp only [hpixel, hiframe, if_true, getProp_of_not_nullish first "body" hfirst,
    getProp_of_not_nullish _ "userSync" hbody, getProp_of_not_nullish _ "url" hus, hurl,
    ok_bind, List.singleton_append] at hrun
  refine ⟨_, _, hrun, ?_, ?_⟩
  · cases b
    · exact containsText_append_left IFRAME_SYNC_URL "gdpr=0" ("&gdpr_consent=" ++ consentString)
    · exact containsText_append_left IFRAME_SYNC_URL "gdpr=1" ("&gdpr_consent=" ++ consentString)
  · cases b
    · exact containsText_append_left url "gdpr=0" ("&gdpr_consent=" ++ consentString)
    · exact containsText_append_left url "gdpr=1" ("&gdpr_consent=" ++ consentString)

/-- Witness for C11: `gdprApplies` true, consent string 'CS', one response. -/
theorem getUserSyncs_two_descriptors_witness :
    ∃ u₁ u₂ : String,
      getUserSyncs (.obj [("iframeEnabled", .bool true), ("pixelEnabled", .bool true)])
          [.obj [("body", .obj [("userSync", .obj [("url", .str "https://s.example/p?")])])]]
          (.obj [("gdprApplies", .bool true), ("consentString", .str "CS")]) .undefined
        = .ok (.arr [.obj [("type", .str "iframe"), ("url", .str u₁)],
            .obj [("type", .str "image"), ("url", .str u₂)]]) ∧
      containsText u₁ "gdpr=1" ∧ containsText u₂ "gdpr=1" :=
  getUserSyncs_two_descriptors
    (.obj [("iframeEnabled", .bool true), ("pixelEnabled", .bool true)])
    (.obj [("gdprApplies", .bool true), ("consentString", .str "CS")]) .undefined
    (.obj [("body", .obj [("userSync", .obj [("url", .str "https://s.example/p?")])])])
    [] true "CS" "https://s.example/p?" rfl rfl rfl rfl rfl

/-- C12: whenever `getUserSyncs` returns, its result is the 'iframe' descriptor
(present exactly when `iframeEnabled` is truthy, with the fixed vendor URL followed
by the consent fragment) followed by the 'image' descriptor (present exactly when
`pixelEnabled` is truthy and the list of responses is not empty, with the first
response's `body.userSync.url` followed by the consent fragment); it is empty when
neither is present. -/
theorem getUserSyncs_descriptors (syncOptions gdprConsent usp result : JSVal)
    (serverResponses : List JSVal)
    (h : getUserSyncs syncOptions serverResponses gdprConsent usp = .ok result) :
    ∃ fragment : String,
      gdpr_params gdprConsent = .ok fragment ∧
      result = .arr (
        (if (fieldOf syncOptions "iframeEnabled").truthy
          then [.obj [("type", .str "iframe"),
            ("url", .str ("//acdn.adnxs.com/ib/static/usersync/v3/async_usersync.html?"
              ++ fragment))]]
          else []) ++
        (match serverResponses with
          | first :: _ =>
            if (fieldOf syncOptions "pixelEnabled").truthy
              then [.obj [("type", .str "image"),
                ("url", .str ((fieldOf (fieldOf (fieldOf first "body") "userSync") "url").toStr
                  ++ fragment))]]
              else []
          | [] => [])) := by
  cases hg : gdpr_params gdprConsent with
  | error e => simp [getUserSyncs, hg] at h
  | ok fragment =>
    have hso : syncOptions.isNullish = false := by
      cases hn : syncOptions.isNullish
      · rfl
      · have : getProp syncOptions "iframeEnabled" = .error .typeError := by
          cases syncOptions <;> simp_all [JSVal.isNullish, getProp]
        simp [getUserSyncs, hg, this] at h
    rw [getUserSyncs_of_fragment syncOptions gdprConsent usp serverResponses fragment hg hso] at h
    refine ⟨fragment, rfl, ?_⟩
    cases hpix : (fieldOf syncOptions "pixelEnabled").truthy
    · rw [hpix] at h
      simp only [Bool.false_eq_true, if_false] at h
      have hres := (Except.ok.inj h).symm
      cases serverResponses <;> simpa [syncDescriptor, IFRAME_SYNC_URL] using hres
    · rw [hpix] at h
      simp only [if_true] at h
      cases serverResponses with
      | nil =>
        have hres := (Except.ok.inj h).symm
        simpa [syncDescriptor, IFRAME_SYNC_URL] using hres
      | cons first rest =>
        simp only at h
        have hfirst : first.isNullish = false := by
          cases hn : first.isNullish
          · rfl
          · have : getProp first "body" = .error .typeError := by
              cases first <;> simp_all [JSVal.isNullish, getProp]
            simp [this] at h
        rw [getProp_of_not_nullish first "body" hfirst, ok_bind] at h
        have hbody : (fieldOf first "body").isNullish = false := by
          cases hn : (fieldOf first "body").isNullish
          · rfl
          · have : getProp (fieldOf first "body") "userSync" = .error .typeError := by
              cases hb : fieldOf first "body" <;> simp_all [JSVal.isNullish, getProp]
            simp [this] at h
        rw [getProp_of_not_nullish _ "userSync" hbody, ok_bind] at h
        have hus : (fieldOf (fieldOf first "body") "userSync").isNullish = false := by
          cases hn : (fieldOf (fieldOf first "body") "userSync").isNullish
          · rfl
          · have : getProp (fieldOf (fieldOf first "body") "userSync") "url"
                = .error .typeError := by
              cases hb : fieldOf (fieldOf first "body") "userSync" <;>
                simp_all [JSVal.isNullish, getProp]
            simp [this] at h
        rw [getProp_of_not_nullish _ "url" hus, ok_bind] at h
        have hres := (Except.ok.inj h).symm
        simpa [syncDescriptor, IFRAME_SYNC_URL, hpix] using hres

/-- Witness for C12: pixel syncs only, `gdprApplies` absent, one response. -/
theorem getUserSyncs_descriptors_witness :
    getUserSyncs (.obj [("pixelEnabled", .bool true)])
        [.obj [("body", .obj [("userSync", .obj [("url", .str "https://s.example/p?")])])]]
        (.obj [("consentString", .str "CS")]) .undefined
      = .ok (.arr [.obj [("type", .str "image"),
          ("url", .str "https://s.example/p?gdpr_consent=CS")]]) ∧
    ∃ fragment : String,
      gdpr_params (.obj [("consentString", .str "CS")]) = .ok fragment ∧
      JSVal.arr [.obj [("type", .str "image"),
          ("url", .str "https://s.example/p?gdpr_consent=CS")]]
        = .arr (
          (if (fieldOf (.obj [("pixelEnabled", .bool true)]) "iframeEnabled").truthy
            then [.obj [("type", .str "iframe"),
              ("url", .str ("//acdn.adnxs.com/ib/static/usersync/v3/async_usersync.html?"
                ++ fragment))]]
            else []) ++
          (if (fieldOf (.obj [("pixelEnabled", .bool true)]) "pixelEnabled").truthy
            then [.obj [("type", .str "image"),
              ("url", .str ((fieldOf (fieldOf (fieldOf
                (.obj [("body", .obj [("userSync",
                  .obj [("url", .str "https://s.example/p?")])])]) "body") "userSync")
                  "url").toStr ++ fragment))]]
            else [])) :=
  ⟨rfl, getUserSyncs_descriptors (.obj [("pixelEnabled", .bool true)])
    (.obj [("consentString", .str "CS")]) .undefined _
    [.obj [("body", .obj [("userSync", .obj [("url", .str "https://s.example/p?")])])]] rfl⟩

/-- C13 (what the code does): `getUserSyncs` raises a `TypeError` when the consent
argument is `undefined` or `null`, whatever the other arguments, and when pixel
syncs are enabled and the first server response has no `body.userSync`. -/
theorem getUserSyncs_faults (syncOptions usp : JSVal) (serverResponses : List JSVal) :
    getUserSyncs syncOptions serverResponses .undefined usp = .error .typeError ∧
    getUserSyncs syncOptions serverResponses .null usp = .error .typeError ∧
    ∀ (gdprConsent first : JSVal) (rest : List JSVal),
      gdprConsent.isNullish = false →
      (fieldOf syncOptions "pixelEnabled").truthy = true →
      (fieldOf (fieldOf first "body") "userSync").isNullish = true →
      getUserSyncs syncOptions (first :: rest) gdprConsent usp = .error .typeError := by
  refine ⟨rfl, rfl, ?_⟩
  intro gdprConsent first rest hgc hpixel hmissing
  have hso := isNullish_of_fieldOf_truthy syncOptions "pixelEnabled" hpixel
  rw [getUserSyncs_of_fragment syncOptions gdprConsent usp (first :: rest) _
    (gdpr_params_of_not_nullish gdprConsent hgc) hso, hpixel]
  simp only [if_true]
  cases hfirst : first.isNullish
  · rw [getProp_of_not_nullish first "body" hfirst, ok_bind]
    cases hbody : (fieldOf first "body").isNullish
    · rw [getProp_of_not_nullish _ "userSync" hbody, ok_bind]
      cases hus : fieldOf (fieldOf first "body") "userSync" <;>
        simp_all [JSVal.isNullish, getProp]
    · cases hb : fieldOf first "body" <;> simp_all [JSVal.isNullish, getProp]
  · cases first <;> simp_all [JSVal.isNullish, getProp]

/-- Witness for C13: a consent record and a first response whose body has no
`userSync` entry, with pixel syncs enabled. -/
theorem getUserSyncs_faults_witness :
    getUserSyncs (.obj [("iframeEnabled", .bool true)]) [] .undefined .undefined
      = .error .typeError ∧
    getUserSyncs (.obj [("pixelEnabled", .bool true)]) [.obj [("body", .obj [])]]
        (.obj [("gdprApplies", .bool true), ("consentString", .str "CS")]) .undefined
      = .error .typeError :=
  ⟨(getUserSyncs_faults (.obj [("iframeEnabled", .bool true)]) .undefined []).1,
   (getUserSyncs_faults (.obj [("pixelEnabled", .bool true)]) .undefined []).2.2
      (.obj [("gdprApplies", .bool true), ("consentString", .str "CS")])
      (.obj [("body", .obj [])]) [] rfl rfl rfl⟩

/-! ## The payload of a request -/

/-- The descriptor of a bid request carries the serialized payload. -/
theorem buildRequest_eq_buildPayload (env : PageSnapshot) (bid : JSVal) :
    buildRequest env bid
      = buildPayload env bid >>= fun payload =>
          .ok (.obj [("method", .str "POST"), ("url", .str ENDPOINT_URL),
            ("data", JSON.stringify payload)]) := by
  simp only [buildRequest, buildPayload, bind_assoc, pure_bind]
  rfl

theorem fieldOf_of_getProp (v x : JSVal) (k : String) (h : getProp v k = .ok x) :
    fieldOf v k = x := by
  simp [fieldOf, h]

/-- C15: the payload that the callback of `buildRequests` composes for a bid
request has `pubProvidedIds` equal to `handleUserIds(bid.userIdAsEid)`,
`tdidRepetition` equal to `getTdidRepetition` of that table, `ssspUid` equal to
`bidderRequestId`, `adUnitCode`, `auctionId` and `bidId` copied from the record and
a `mediaType` object with the `banner` entry only; the descriptor carries this
payload serialized. A payload is composed for every record with a `mediaType`
and processable identity assertions. -/
theorem buildPayload_fields (env : PageSnapshot) (bid : JSVal) :
    (composable bid = true → ∃ payload, buildPayload env bid = .ok payload) ∧
    ∀ payload, buildPayload env bid = .ok payload →
      ∃ (table : JSVal) (code : Int),
        handleUserIds (fieldOf bid "userIdAsEid") = .ok table ∧
        getTdidRepetition table = .ok code ∧
        payload = .obj [
          ("ssspUid", fieldOf bid "bidderRequestId"),
          ("adUnitCode", fieldOf bid "adUnitCode"),
          ("auctionId", fieldOf bid "auctionId"),
          ("bidId", fieldOf bid "bidId"),
          ("mediaType", .obj [("banner", fieldOf (fieldOf bid "mediaType") "banner")]),
          ("site", .obj [
            ("page", .str env.PAGE),
            ("domain", .str env.DOMAIN),
            ("publisher", .obj [("domain", .str env.DOMAIN)])]),
          ("device", .obj [("w", .num env.WIDTH), ("h", .num env.HEIGHT)]),
          ("pubProvidedIds", table),
          ("tdidRepetition", .num code)] ∧
        buildRequest env bid
          = .ok (.obj [("method", .str "POST"),
              ("url", .str "http://www.superssp.com:1234/api/v1"),
              ("data", JSON.stringify payload)]) := by
  constructor
  · intro hc
    simp only [composable, Bool.and_eq_true, Bool.not_eq_true'] at hc
    obtain ⟨⟨hn, hm⟩, hids⟩ := hc
    have hshape : ∀ items, fieldOf bid "userIdAsEid" = .arr items →
        ∀ x ∈ items, wellShaped x = true := by
      intro items e
      rw [e] at hids
      simpa using hids
    obtain ⟨t, ps, hrun, hall, hp⟩ := handleUserIds_table _ hshape
    obtain ⟨c, hcode, _⟩ := getTdidRepetition_total_of_allArrays t ps hall hp
    simp only [buildPayload, getProp_of_not_nullish bid _ hn,
      getProp_of_not_nullish _ "banner" hm, hrun, hcode, ok_bind, pure_eq_ok]
    exact ⟨_, rfl⟩
  · intro payload h
    have hn : bid.isNullish = false := by
      cases hb : bid.isNullish
      · rfl
      · have : getProp bid "auctionId" = .error .typeError := by
          cases bid <;> simp_all [JSVal.isNullish, getProp]
        simp [buildPayload, this] at h
    have hlink := buildRequest_eq_buildPayload env bid
    rw [h, ok_bind] at hlink
    simp only [buildPayload, getProp_of_not_nullish bid _ hn, ok_bind] at h
    cases hrun : handleUserIds (fieldOf bid "userIdAsEid") with
    | error e => simp [hrun] at h
    | ok table =>
      rw [hrun, ok_bind] at h
      cases hbanner : getProp (fieldOf bid "mediaType") "banner" with
      | error e => simp [hbanner] at h
      | ok banner =>
        rw [hbanner, ok_bind] at h
        cases hcode : getTdidRepetition table with
        | error e => simp [hcode] at h
        | ok code =>
          rw [hcode, ok_bind] at h
          have hb := fieldOf_of_getProp _ _ _ hbanner
          refine ⟨table, code, rfl, hcode, ?_, hlink⟩
          rw [hb]
          exact (Except.ok.inj h).symm

/-- Witness for C15: a record with two identity assertions that share the id 'A';
its payload has the table of both sources and the code -5. -/
theorem buildPayload_fields_witness :
    (∃ payload,
      buildPayload ⟨"example.com", "https://example.com/", 1280, 720⟩
        (.obj [("bidderRequestId", .str "r1"), ("bidId", .str "b1"),
          ("mediaType", .obj [("banner", .obj []), ("video", .obj [])]),
          ("userIdAsEid", .arr [
            .obj [("source", .str "pubcid.org"), ("uids", .arr [.obj [("id", .str "A")]])],
            .obj [("source", .str "adserver.org"), ("uids", .arr [.obj [("id", .str "A")]])]])])
        = .ok payload) ∧
    ∃ (table : JSVal) (code : Int),
      handleUserIds (.arr [
          .obj [("source", .str "pubcid.org"), ("uids", .arr [.obj [("id", .str "A")]])],
          .obj [("source", .str "adserver.org"), ("uids", .arr [.obj [("id", .str "A")]])]])
        = .ok table ∧
      getTdidRepetition table = .ok code ∧
      JSVal.obj [
          ("ssspUid", .str "r1"),
          ("adUnitCode", .undefined),
          ("auctionId", .undefined),
          ("bidId", .str "b1"),
          ("mediaType", .obj [("banner", .obj [])]),
          ("site", .obj [
            ("page", .str "https://example.com/"),
            ("domain", .str "example.com"),
            ("publisher", .obj [("domain", .str "example.com")])]),
          ("device", .obj [("w", .num 1280), ("h", .num 720)]),
          ("pubProvidedIds", .obj [("pubcid.org", .arr [.str "A"]),
            ("adserver.org", .arr [.str "A"])]),
          ("tdidRepetition", .num (-5))]
        = .obj [
          ("ssspUid", .str "r1"),
          ("adUnitCode", .undefined),
          ("auctionId", .undefined),
          ("bidId", .str "b1"),
          ("mediaType", .obj [("banner", .obj [])]),
          ("site", .obj [
            ("page", .str "https://example.com/"),
            ("domain", .str "example.com"),
            ("publisher", .obj [("domain", .str "example.com")])]),
          ("device", .obj [("w", .num 1280), ("h", .num 720)]),
          ("pubProvidedIds", table),
          ("tdidRepetition", .num code)] :=
  ⟨(buildPayload_fields ⟨"example.com", "https://example.com/", 1280, 720⟩
      (.obj [("bidderRequestId", .str "r1"), ("bidId", .str "b1"),
        ("mediaType", .obj [("banner", .obj []), ("video", .obj [])]),
        ("userIdAsEid", .arr [
          .obj [("source", .str "pubcid.org"), ("uids", .arr [.obj [("id", .str "A")]])],
          .obj [("source", .str "adserver.org"),
            ("uids", .arr [.obj [("id", .str "A")]])]])])).1 (by decide),
   match (buildPayload_fields ⟨"example.com", "https://example.com/", 1280, 720⟩
      (.obj [("bidderRequestId", .str "r1"), ("bidId", .str "b1"),
        ("mediaType", .obj [("banner", .obj []), ("video", .obj [])]),
        ("userIdAsEid", .arr [
          .obj [("source", .str "pubcid.org"), ("uids", .arr [.obj [("id", .str "A")]])],
          .obj [("source", .str "adserver.org"),
            ("uids", .arr [.obj [("id", .str "A")]])]])])).2 _ rfl with
   | ⟨table, code, hrun, hcode, hpayload, _⟩ => ⟨table, code, hrun, hcode, hpayload⟩⟩

/-! ## What the reconciler reads -/

theorem tdidLoop_congr (t₁ t₂ : List (String × JSVal)) (ids : List JSVal)
    (hp : lookup "pubcid.org" t₁ = lookup "pubcid.org" t₂) :
    tdidLoop (.obj t₁) ids = tdidLoop (.obj t₂) ids := by
  induction ids with
  | nil => rfl
  | cons id rest ih => simp only [tdidLoop, getProp, hp, ih]

/-- C18: two tables that agree on the entries 'adserver.org' and 'pubcid.org'
(presence and value) get the same result from `getTdidRepetition`, whatever their
other keys and values. -/
theorem getTdidRepetition_depends_on_two_keys (t₁ t₂ : List (String × JSVal))
    (ha : lookup "adserver.org" t₁ = lookup "adserver.org" t₂)
    (hp : lookup "pubcid.org" t₁ = lookup "pubcid.org" t₂) :
    getTdidRepetition (.obj t₁) = getTdidRepetition (.obj t₂) := by
  have hloop : tdidLoop (.obj t₁) = tdidLoop (.obj t₂) :=
    funext fun ids => tdidLoop_congr t₁ t₂ ids hp
  have hread : getProp (.obj t₁) "adserver.org" = getProp (.obj t₂) "adserver.org" := by
    simp only [getProp, ha]
  simp only [getTdidRepetition, JSVal.isUndefined, Bool.false_eq_true, if_false, hread, hloop]

/-- Witness for C18: two tables with the same two entries and different other keys. -/
theorem getTdidRepetition_depends_on_two_keys_witness :
    getTdidRepetition (.obj [("pubcid.org", idSeq ["A"]), ("adserver.org", idSeq ["A", "B"])])
      = getTdidRepetition (.obj [("id5-sync.com", idSeq ["A"]), ("adserver.org", idSeq ["A", "B"]),
          ("criteo.com", .num 3), ("pubcid.org", idSeq ["A"])]) :=
  getTdidRepetition_depends_on_two_keys
    [("pubcid.org", idSeq ["A"]), ("adserver.org", idSeq ["A", "B"])]
    [("id5-sync.com", idSeq ["A"]), ("adserver.org", idSeq ["A", "B"]),
      ("criteo.com", .num 3), ("pubcid.org", idSeq ["A"])] rfl rfl

/-! ## The keys of the normalized table -/

theorem mem_ownKeys_iff (k : String) (t : List (String × JSVal)) :
    k ∈ ownKeys t ↔ (lookup k t).isSome = true := by
  induction t with
  | nil => simp [ownKeys, lookup]
  | cons p rest ih =>
    obtain ⟨k', v⟩ := p
    by_cases hk : k' = k
    · simp [ownKeys, lookup, hk]
    · have hk' : ¬ k = k' := fun e => hk e.symm
      simp only [ownKeys, List.map_cons, List.mem_cons, hk', false_or, lookup, hk, if_false]
      exact ih

theorem lookup_assign_isSome_iff (k k' : String) (v : JSVal) (t : List (String × JSVal)) :
    (lookup k (assign t k' v)).isSome = true
      ↔ (lookup k t).isSome = true ∨ (k = k' ∧ k ≠ "__proto__") := by
  by_cases hk : k = k'
  · subst hk
    by_cases hp : k = "__proto__"
    · by_cases hown : hasOwn k t = true
      · have h1 : (lookup k t).isSome = true := hown
        simp [assign, hown, lookup_replaceOwn_same k v t hown, h1]
      · have hnone : lookup k t = none := by simpa [hasOwn] using hown
        unfold assign
        rw [if_neg hown, if_pos hp, hnone]
        simp [hp]
    · simp [lookup_assign_same k v t hp, hp]
  · simp [lookup_assign_other k' k v t hk, hk]

theorem lookup_fileItems_isSome_iff (k : String) (items : List JSVal)
    (t : List (String × JSVal)) :
    (lookup k (fileItems t items)).isSome = true
      ↔ (lookup k t).isSome = true ∨ (k ≠ "__proto__" ∧ ∃ x ∈ items, sourceKeyOf x = k) := by
  induction items generalizing t with
  | nil => simp [fileItems]
  | cons x rest ih =>
    rw [fileItems_cons, ih, lookup_assign_isSome_iff]
    constructor
    · rintro ((h | ⟨hk, hp⟩) | ⟨hp, y, hy, hky⟩)
      · exact Or.inl h
      · exact Or.inr ⟨hp, x, List.mem_cons_self _ _, hk.symm⟩
      · exact Or.inr ⟨hp, y, List.mem_cons_of_mem _ hy, hky⟩
    · rintro (h | ⟨hp, y, hy, hky⟩)
      · exact Or.inl (Or.inl h)
      · rcases List.mem_cons.mp hy with rfl | hy'
        · exact Or.inl (Or.inr ⟨hky.symm, hp⟩)
        · exact Or.inr ⟨hp, y, hy', hky⟩

/-- Counterexample for C17: an assertion whose source is '__proto__' adds no key to
the table: the only key of the result is 'pubcid.org'. -/
theorem handleUserIds_keys_counterexample :
    handleUserIds (.arr [.obj [("source", .str "__proto__"),
        ("uids", .arr [.obj [("id", .str "A")]])]])
      = .ok (.obj [("pubcid.org", .arr [])]) ∧
    sourceKeyOf (.obj [("source", .str "__proto__"), ("uids", .arr [.obj [("id", .str "A")]])])
      = "__proto__" ∧
    ownKeys [("pubcid.org", JSVal.arr [])] = ["pubcid.org"] ∧
    "__proto__" ∉ ownKeys [("pubcid.org", JSVal.arr [])] := by
  refine ⟨rfl, rfl, rfl, ?_⟩
  decide

/-- C17 (amended): the keys of the table that `handleUserIds` returns for an array
of assertions are exactly 'pubcid.org' and the source keys of the elements other
than '__proto__'. -/
theorem handleUserIds_keys (items : List JSVal) (h : ∀ x ∈ items, wellShaped x = true) :
    ∃ t, handleUserIds (.arr items) = .ok (.obj t) ∧
      ∀ k, k ∈ ownKeys t ↔
        (k = "pubcid.org" ∨ (k ≠ "__proto__" ∧ ∃ x ∈ items, sourceKeyOf x = k)) := by
  refine ⟨_, handleUserIds_wellShaped items h, ?_⟩
  intro k
  rw [mem_ownKeys_iff, lookup_fileItems_isSome_iff]
  have hinit : (lookup k initialTable).isSome = true ↔ k = "pubcid.org" := by
    by_cases hk : "pubcid.org" = k
    · simp [initialTable, lookup, hk]
    · have hk' : ¬ k = "pubcid.org" := fun e => hk e.symm
      simp [initialTable, lookup, hk, hk']
  rw [hinit]

/-- Witness for C17 (amended): assertions with the sources 'adserver.org' and
'__proto__'. -/
theorem handleUserIds_keys_witness :
    ∃ t, handleUserIds (.arr [
        .obj [("source", .str "adserver.org"), ("uids", .arr [.obj [("id", .str "A")]])],
        .obj [("source", .str "__proto__")]]) = .ok (.obj t) ∧
      ∀ k, k ∈ ownKeys t ↔
        (k = "pubcid.org" ∨ (k ≠ "__proto__" ∧
          ∃ x ∈ [JSVal.obj [("source", .str "adserver.org"),
              ("uids", .arr [.obj [("id", .str "A")]])],
            JSVal.obj [("source", .str "__proto__")]], sourceKeyOf x = k)) :=
  handleUserIds_keys _ (by decide)

/-! ## Normalizing, then reconciling -/

theorem lastWithSource_eq_none_iff (k : String) (items : List JSVal) :
    lastWithSource k items = none ↔ ∀ x ∈ items, sourceKeyOf x ≠ k := by
  induction items with
  | nil => simp [lastWithSource]
  | cons x rest ih =>
    cases hrest : lastWithSource k rest with
    | some y =>
      have hne : ¬ ∀ z ∈ rest, sourceKeyOf z ≠ k := fun hall => by
        rw [ih.mpr hall] at hrest
        cases hrest
      simp only [lastWithSource, hrest, List.mem_cons, forall_eq_or_imp]
      constructor
      · intro h
        cases h
      · intro h
        exact absurd h.2 hne
    | none =>
      have hall := ih.mp hrest
      by_cases hx : sourceKeyOf x = k
      · simp [lastWithSource, hrest, hx]
      · simp only [lastWithSource, hrest, hx, if_false, List.mem_cons, forall_eq_or_imp, true_iff]
        exact ⟨hx, hall⟩

/-- The entry of the table of filed assertions at a key: the ids of the last
assertion filed under it, the previous entry when there is none. -/
theorem lookup_fileItems_lastWithSource (k : String) (items : List JSVal)
    (t : List (String × JSVal)) (hk : k ≠ "__proto__") :
    lookup k (fileItems t items)
      = match lastWithSource k items with
        | some x => some (.arr (idsOf x))
        | none => lookup k t := by
  induction items generalizing t with
  | nil => rfl
  | cons x rest ih =>
    rw [fileItems_cons, ih]
    cases hrest : lastWithSource k rest with
    | some y => simp [lastWithSource, hrest]
    | none =>
      by_cases hx : sourceKeyOf x = k
      · subst hx
        simp [lastWithSource, hrest, lookup_assign_same _ _ _ hk]
      · have hx' : k ≠ sourceKeyOf x := fun e => hx e.symm
        simp [lastWithSource, hrest, hx, lookup_assign_other _ _ _ _ hx']

theorem any_strictEq_iff (ps ids : List JSVal) :
    (ids.any fun id => ps.any fun p => JSVal.strictEq p id) = true
      ↔ ∃ i ∈ ids, ∃ j ∈ ps, JSVal.strictEq j i = true := by
  simp only [List.any_eq_true]

theorem idsOf_eq_nil_iff (a : JSVal) : idsOf a = [] ↔ uidsOf a = [] := by
  simp [idsOf]

theorem code_iffs (c : Int) (P₂ P₁ P₅ : Prop)
    (h : (c = -2 ∧ P₂ ∧ ¬ P₁ ∧ ¬ P₅) ∨ (c = -1 ∧ ¬ P₂ ∧ P₁ ∧ ¬ P₅) ∨
      (c = -5 ∧ ¬ P₂ ∧ ¬ P₁ ∧ P₅) ∨ (c = 0 ∧ ¬ P₂ ∧ ¬ P₁ ∧ ¬ P₅)) :
    (c = -2 ↔ P₂) ∧ (c = -1 ↔ P₁) ∧ (c = -5 ↔ P₅) ∧ (c = 0 ↔ ¬ P₂ ∧ ¬ P₁ ∧ ¬ P₅) := by
  rcases h with ⟨rfl, h₂, h₁, h₅⟩ | ⟨rfl, h₂, h₁, h₅⟩ | ⟨rfl, h₂, h₁, h₅⟩ | ⟨rfl, h₂, h₁, h₅⟩
  · simp [h₂, h₁, h₅]
  · simp [h₂, h₁, h₅]
  · simp [h₂, h₁, h₅]
  · simp [h₂, h₁, h₅]

/-- Which of the four cases holds for the table of a list of well-shaped assertions. -/
theorem reconcile_fileItems (items : List JSVal) :
    ∃ c : Int, getTdidRepetition (.obj (fileItems initialTable items)) = .ok c ∧
      ((c = -2 ∧ (∀ x ∈ items, sourceKeyOf x ≠ "adserver.org") ∧
          (¬ ∃ a, lastWithSource "adserver.org" items = some a ∧ uidsOf a = []) ∧
          ¬ ∃ a p, lastWithSource "adserver.org" items = some a ∧
            lastWithSource "pubcid.org" items = some p ∧
            ∃ i ∈ idsOf a, ∃ j ∈ idsOf p, JSVal.strictEq j i = true) ∨
        (c = -1 ∧ (¬ ∀ x ∈ items, sourceKeyOf x ≠ "adserver.org") ∧
          (∃ a, lastWithSource "adserver.org" items = some a ∧ uidsOf a = []) ∧
          ¬ ∃ a p, lastWithSource "adserver.org" items = some a ∧
            lastWithSource "pubcid.org" items = some p ∧
            ∃ i ∈ idsOf a, ∃ j ∈ idsOf p, JSVal.strictEq j i = true) ∨
        (c = -5 ∧ (¬ ∀ x ∈ items, sourceKeyOf x ≠ "adserver.org") ∧
          (¬ ∃ a, lastWithSource "adserver.org" items = some a ∧ uidsOf a = []) ∧
          ∃ a p, lastWithSource "adserver.org" items = some a ∧
            lastWithSource "pubcid.org" items = some p ∧
            ∃ i ∈ idsOf a, ∃ j ∈ idsOf p, JSVal.strictEq j i = true) ∨
        (c = 0 ∧ (¬ ∀ x ∈ items, sourceKeyOf x ≠ "adserver.org") ∧
          (¬ ∃ a, lastWithSource "adserver.org" items = some a ∧ uidsOf a = []) ∧
          ¬ ∃ a p, lastWithSource "adserver.org" items = some a ∧
            lastWithSource "pubcid.org" items = some p ∧
            ∃ i ∈ idsOf a, ∃ j ∈ idsOf p, JSVal.strictEq j i = true)) := by
  have hA := lookup_fileItems_lastWithSource "adserver.org" items initialTable (by decide)
  have hP := lookup_fileItems_lastWithSource "pubcid.org" items initialTable (by decide)
  cases hla : lastWithSource "adserver.org" items with
  | none =>
    rw [hla] at hA
    have hnone : lookup "adserver.org" (fileItems initialTable items) = none := hA
    refine ⟨-2, getTdidRepetition_absent _ hnone, Or.inl ⟨rfl, ?_, ?_, ?_⟩⟩
    · exact (lastWithSource_eq_none_iff _ _).mp hla
    · rintro ⟨a, ha, _⟩
      cases ha
    · rintro ⟨a, p, ha, _⟩
      cases ha
  | some a =>
    rw [hla] at hA
    have hsome : lookup "adserver.org" (fileItems initialTable items) = some (.arr (idsOf a)) := hA
    have hnot2 : ¬ ∀ x ∈ items, sourceKeyOf x ≠ "adserver.org" := fun hall => by
      rw [(lastWithSource_eq_none_iff _ _).mpr hall] at hla
      cases hla
    cases hids : idsOf a with
    | nil =>
      rw [hids] at hsome
      refine ⟨-1, getTdidRepetition_empty _ hsome, Or.inr (Or.inl ⟨rfl, hnot2, ?_, ?_⟩)⟩
      · exact ⟨a, rfl, (idsOf_eq_nil_iff a).mp hids⟩
      · rintro ⟨a', p, ha', _, i, hi, _⟩
        cases ha'
        rw [hids] at hi
        cases hi
    | cons i rest =>
      rw [hids] at hsome
      have hnot1 : ¬ ∃ a', some a = some a' ∧ uidsOf a' = [] := by
        rintro ⟨a', ha', hu⟩
        cases ha'
        rw [(idsOf_eq_nil_iff a).mpr hu] at hids
        cases hids
      have hrun := getTdidRepetition_nonempty _ i rest hsome
      cases hlp : lastWithSource "pubcid.org" items with
      | none =>
        rw [hlp] at hP
        have hbase : lookup "pubcid.org" (fileItems initialTable items) = some (.arr []) := hP
        rw [tdidLoop_of_baseline _ [] _ hbase] at hrun
        refine ⟨0, by simpa using hrun, Or.inr (Or.inr (Or.inr ⟨rfl, hnot2, hnot1, ?_⟩))⟩
        rintro ⟨a', p, _, hp, _⟩
        cases hp
      | some p =>
        rw [hlp] at hP
        have hbase : lookup "pubcid.org" (fileItems initialTable items)
            = some (.arr (idsOf p)) := hP
        rw [tdidLoop_of_baseline _ (idsOf p) _ hbase] at hrun
        by_cases hhit : ((i :: rest).any fun id => (idsOf p).any fun q =>
            JSVal.strictEq q id) = true
        · rw [if_pos hhit] at hrun
          refine ⟨-5, hrun, Or.inr (Or.inr (Or.inl ⟨rfl, hnot2, hnot1, a, p, rfl, rfl, ?_⟩))⟩
          rw [hids]
          exact (any_strictEq_iff _ _).mp hhit
        · rw [if_neg hhit] at hrun
          refine ⟨0, hrun, Or.inr (Or.inr (Or.inr ⟨rfl, hnot2, hnot1, ?_⟩))⟩
          rintro ⟨a', p', ha', hp', hex⟩
          cases ha'
          cases hp'
          rw [hids] at hex
          exact hhit ((any_strictEq_iff _ _).mpr hex)

/-- Counterexample for C16: an array of one assertion of source 'pubcid.org' whose
`uids` is the sequence `[null]`: no element has the source 'adserver.org', yet
`getTdidRepetition(handleUserIds(assertions))` raises a `TypeError` and is not -2. -/
theorem normalize_then_reconcile_counterexample :
    fieldOf (.obj [("source", .str "pubcid.org"), ("uids", .arr [.null])]) "uids"
      = .arr [.null] ∧
    (∀ x ∈ [JSVal.obj [("source", .str "pubcid.org"), ("uids", .arr [.null])]],
      sourceKeyOf x ≠ "adserver.org") ∧
    (handleUserIds (.arr [.obj [("source", .str "pubcid.org"), ("uids", .arr [.null])]])
      >>= getTdidRepetition) = .error .typeError ∧
    (handleUserIds (.arr [.obj [("source", .str "pubcid.org"), ("uids", .arr [.null])]])
      >>= getTdidRepetition) ≠ .ok (-2) := by
  refine ⟨rfl, by decide, rfl, ?_⟩
  intro h
  have herr : (handleUserIds
      (.arr [.obj [("source", .str "pubcid.org"), ("uids", .arr [.null])]])
      >>= getTdidRepetition) = .error .typeError := rfl
  rw [herr] at h
  cases h

/-- C16 (amended): for every array of assertions whose uids are absent or sequences
without a `null` or `undefined` entry,
`getTdidRepetition(handleUserIds(assertions))` is -2 iff no element has the source
'adserver.org', -1 iff the last element with the source 'adserver.org' has no uids,
-5 iff an id of a uid of that element is strictly equal to an id of a uid of the
last element with the source 'pubcid.org', and 0 otherwise; the three examples of
the specification give -5, -2 and -1. -/
theorem normalize_then_reconcile :
    (∀ items : List JSVal, (∀ x ∈ items, isAssertion x = true) →
      ∃ c : Int, (handleUserIds (.arr items) >>= getTdidRepetition) = .ok c ∧
        (c = -2 ↔ ∀ x ∈ items, sourceKeyOf x ≠ "adserver.org") ∧
        (c = -1 ↔ ∃ a, lastWithSource "adserver.org" items = some a ∧ uidsOf a = []) ∧
        (c = -5 ↔ ∃ a p, lastWithSource "adserver.org" items = some a ∧
          lastWithSource "pubcid.org" items = some p ∧
          ∃ i ∈ idsOf a, ∃ j ∈ idsOf p, JSVal.strictEq j i = true) ∧
        (c = 0 ↔ (¬ ∀ x ∈ items, sourceKeyOf x ≠ "adserver.org") ∧
          (¬ ∃ a, lastWithSource "adserver.org" items = some a ∧ uidsOf a = []) ∧
          ¬ ∃ a p, lastWithSource "adserver.org" items = some a ∧
            lastWithSource "pubcid.org" items = some p ∧
            ∃ i ∈ idsOf a, ∃ j ∈ idsOf p, JSVal.strictEq j i = true)) ∧
    (handleUserIds (.arr [
        .obj [("source", .str "pubcid.org"), ("uids", .arr [.obj [("id", .str "A")]])],
        .obj [("source", .str "adserver.org"), ("uids", .arr [.obj [("id", .str "A")]])]])
      >>= getTdidRepetition) = .ok (-5) ∧
    (handleUserIds (.arr [
        .obj [("source", .str "pubcid.org"), ("uids", .arr [.obj [("id", .str "X")]])]])
      >>= getTdidRepetition) = .ok (-2) ∧
    (handleUserIds (.arr [.obj [("source", .str "adserver.org"), ("uids", .arr [])]])
      >>= getTdidRepetition) = .ok (-1) := by
  refine ⟨?_, rfl, rfl, rfl⟩
  intro items h
  obtain ⟨c, hc, hcases⟩ := reconcile_fileItems items
  refine ⟨c, ?_, code_iffs c _ _ _ hcases⟩
  rw [handleUserIds_wellShaped items (fun x hx => wellShaped_of_isAssertion x (h x hx)),
    ok_bind]
  exact hc

/-- Witness for C16 (amended): two assertions with the source 'adserver.org', the
later one sharing the id 'B' with the 'pubcid.org' assertion. -/
theorem normalize_then_reconcile_witness :
    (handleUserIds (.arr [
        .obj [("source", .str "adserver.org"), ("uids", .arr [])],
        .obj [("source", .str "pubcid.org"),
          ("uids", .arr [.obj [("id", .str "A")], .obj [("id", .str "B")]])],
        .obj [("source", .str "adserver.org"), ("uids", .arr [.obj [("id", .str "B")]])]])
      >>= getTdidRepetition) = .ok (-5) ∧
    ∃ c : Int, (handleUserIds (.arr [
        .obj [("source", .str "adserver.org"), ("uids", .arr [])],
        .obj [("source", .str "pubcid.org"),
          ("uids", .arr [.obj [("id", .str "A")], .obj [("id", .str "B")]])],
        .obj [("source", .str "adserver.org"), ("uids", .arr [.obj [("id", .str "B")]])]])
      >>= getTdidRepetition) = .ok c ∧
      (c = -5 ↔ ∃ a p,
        lastWithSource "adserver.org" [
          .obj [("source", .str "adserver.org"), ("uids", .arr [])],
          .obj [("source", .str "pubcid.org"),
            ("uids", .arr [.obj [("id", .str "A")], .obj [("id", .str "B")]])],
          .obj [("source", .str "adserver.org"), ("uids", .arr [.obj [("id", .str "B")]])]]
          = some a ∧
        lastWithSource "pubcid.org" [
          .obj [("source", .str "adserver.org"), ("uids", .arr [])],
          .obj [("source", .str "pubcid.org"),
            ("uids", .arr [.obj [("id", .str "A")], .obj [("id", .str "B")]])],
          .obj [("source", .str "adserver.org"), ("uids", .arr [.obj [("id", .str "B")]])]]
          = some p ∧
        ∃ i ∈ idsOf a, ∃ j ∈ idsOf p, JSVal.strictEq j i = true) :=
  ⟨rfl,
   match normalize_then_reconcile.1 [
      .obj [("source", .str "adserver.org"), ("uids", .arr [])],
      .obj [("source", .str "pubcid.org"),
        ("uids", .arr [.obj [("id", .str "A")], .obj [("id", .str "B")]])],
      .obj [("source", .str "adserver.org"), ("uids", .arr [.obj [("id", .str "B")]])]]
      (by decide) with
   | ⟨c, hc, _, _, h5, _⟩ => ⟨c, hc, h5⟩⟩

end ExampleBidAdapter
